import Mathlib

/-!
Verification development for the Package-to-Plugin Link Reconciler of the
unreal-package-manager repository (source: src/src/shared/types.ts, the
current revision of the link manager, lines 302-607).

The reconciler is asynchronous filesystem code; it is embedded shallowly:

* The destination directory is modelled as `DestState`: an association list
  from plugin name to the filesystem entry at `<destinationDir>/<name>`
  (an entry records whether `lstat` reports a symbolic link, and an abstract
  description of its content), plus the manifest file content and whether the
  destination directory has been created.  All paths the reconciler touches
  have the shape `<destFull>/<pluginName>` or the manifest path, so keying
  entries by plugin name is faithful.
* `fs.rm` and the three link-creation primitives (`fs.cp`, `mklink /J`,
  `fs.symlink`) can fail at the level of the operating system; the model
  takes two oracles `rmFails` and `createFails` that say, per plugin name,
  whether the corresponding primitive fails on this run.  A thrown JavaScript
  exception is modelled by `Except.error`; a caught one never leaves the
  function it is caught in.
* Warning strings are built by string interpolation from fixed templates in
  the source; each template is modelled as one constructor of `Warning`
  carrying the interpolated data, so membership of a warning names the
  plugin or path exactly as the source message does.
* `process.platform` is a `Platform` parameter (`win32` versus everything
  else), the link mode is `Mode` (auto or copy), and the discovery result
  (`findPluginsInNodeModules`) is passed to `syncUePluginLinks` as the list
  it returned; discovery itself is modelled separately on a directory tree.
-/

inductive Platform where
  | win32
  | posix
deriving DecidableEq, Repr

inductive Mode where
  | auto
  | copy
deriving DecidableEq, Repr

/-- `type LinkRecord = { pluginName: string; packageName: string; targetDir: string }` -/
structure LinkRecord where
  pluginName : String
  packageName : String
  targetDir : String
deriving DecidableEq, Repr

/-- Abstract content of a filesystem entry at `<destFull>/<name>`. -/
inductive EntryContent where
  /-- Content the reconciler did not create (identified abstractly). -/
  | foreign (id : Nat)
  /-- A symlink or junction created by the reconciler, pointing at a package directory. -/
  | linkTo (targetDir : String)
  /-- A recursive copy created by the reconciler in copy mode. -/
  | copyOf (targetDir : String)
deriving DecidableEq, Repr

/-- One filesystem entry: `isLink` is what `lstat(..).isSymbolicLink()` reports. -/
structure FsEntry where
  isLink : Bool
  content : EntryContent
deriving DecidableEq, Repr

/-- Warning message templates of the source, one constructor per template,
carrying the interpolated data. -/
inductive Warning where
  /-- Multiple packages provide plugin NAME; keeping the first one. -/
  | duplicatePlugin (pluginName : String)
  /-- Managed link PATH exists but is not a link (manifest entry removed). -/
  | managedNotALink (linkPath : String)
  /-- Failed to remove link PATH. -/
  | failedRemove (linkPath : String)
  /-- Skipping PATH because it exists (not managed). -/
  | skippingExistsNotManaged (linkPath : String)
  /-- Failed to create link PATH. -/
  | failedCreate (linkPath : String)
deriving DecidableEq, Repr

/-- Errors thrown by the filesystem primitives and by `createLinkToDirectory`. -/
inductive LinkError where
  /-- `fs.rm` failed. -/
  | rmFailed
  /-- Destination path already exists and is not a link. -/
  | destExistsNotALink
  /-- `fs.cp` failed. -/
  | cpFailed
  /-- `mklink` failed (non-zero exit code). -/
  | mklinkFailed
  /-- `fs.symlink` failed. -/
  | symlinkFailed
deriving DecidableEq, Repr

/-- `type LinkSyncResult` (the `error?` field is never assigned by
`syncUePluginLinks` and is omitted). -/
structure LinkSyncResult where
  ok : Bool
  linked : List LinkRecord
  removed : List LinkRecord
  warnings : List Warning
deriving DecidableEq, Repr

/-- State of the destination directory and its manifest file.
`manifest = none` models a missing manifest file; `some recs` models a file
whose parsed `links` array is `recs`. -/
structure DestState where
  entries : List (String × FsEntry)
  manifest : Option (List LinkRecord)
  destDirCreated : Bool
deriving DecidableEq, Repr

/-- Path separator used by `path.join` per platform. -/
def sepOf : Platform → String
  | .win32 => "\\"
  | .posix => "/"

/-- `path.join(destFull, pluginName)`. -/
def joinPath (pf : Platform) (a b : String) : String :=
  a ++ sepOf pf ++ b

/-- Lookup of the filesystem entry at `<destFull>/<name>` (`lstat` view). -/
def getEntry (es : List (String × FsEntry)) (n : String) : Option FsEntry :=
  (es.find? (fun p => p.1 = n)).map (fun p => p.2)

/-- Deletion of the filesystem entry at `<destFull>/<name>`. -/
def eraseEntry (es : List (String × FsEntry)) (n : String) : List (String × FsEntry) :=
  es.filter (fun p => p.1 ≠ n)

/-- Creation (or replacement) of the filesystem entry at `<destFull>/<name>`. -/
def setEntry (es : List (String × FsEntry)) (n : String) (e : FsEntry) :
    List (String × FsEntry) :=
  eraseEntry es n ++ [(n, e)]

/-- `const exists = async (p) => ...` via `lstat`: the entry is present. -/
def pathExists (es : List (String × FsEntry)) (n : String) : Bool :=
  (getEntry es n).isSome

/-- `const isSymlink = async (p) => ...`: `lstat` reports a symbolic link,
`false` for a missing path. -/
def isSymlink (es : List (String × FsEntry)) (n : String) : Bool :=
  match getEntry es n with
  | some e => e.isLink
  | none => false

/-- JavaScript `Map.has` for a map from plugin name to record, represented as
the list of records in insertion order (the key always equals the record's
`pluginName` at every call site of the source). -/
def mapHas (m : List LinkRecord) (n : String) : Bool :=
  m.any (fun r => r.pluginName = n)

/-- JavaScript `Map.get`. -/
def mapGet (m : List LinkRecord) (n : String) : Option LinkRecord :=
  m.find? (fun r => r.pluginName = n)

/-- JavaScript `Map.set` keyed by `r.pluginName`: updating an existing key
keeps its position, a new key is appended. -/
def mapSet (m : List LinkRecord) (r : LinkRecord) : List LinkRecord :=
  if mapHas m r.pluginName then
    m.map (fun x => if x.pluginName = r.pluginName then r else x)
  else
    m ++ [r]

/-- `loadManifest`: build the map from the parsed `links` array, skipping
records whose `pluginName` is falsy (the empty string); any read or parse
failure (including a missing file) yields an empty map. -/
def loadManifest : Option (List LinkRecord) → List LinkRecord
  | none => []
  | some recs => recs.foldl (fun m r => if r.pluginName ≠ "" then mapSet m r else m) []

/-- One step of building `desiredByPlugin` from the discovery output:
first-seen wins, later duplicates only push a warning. -/
def desiredStep (acc : List LinkRecord × List Warning) (rec : LinkRecord) :
    List LinkRecord × List Warning :=
  if mapHas acc.1 rec.pluginName then
    (acc.1, acc.2 ++ [Warning.duplicatePlugin rec.pluginName])
  else
    (mapSet acc.1 rec, acc.2)

/-- The `desiredByPlugin` map together with the duplicate warnings pushed
while building it. -/
def buildDesired (discovered : List LinkRecord) : List LinkRecord × List Warning :=
  discovered.foldl desiredStep ([], [])

/-- `removeLinkDir`: `fs.rm(linkPath, { recursive: true, force: true })`;
failure throws, success removes the entry. -/
def removeLinkDir (rmFails : String → Bool) (es : List (String × FsEntry))
    (n : String) : Except LinkError (List (String × FsEntry)) :=
  if rmFails n then .error .rmFailed else .ok (eraseEntry es n)

/-- The mode- and platform-dependent tail of `createLinkToDirectory`
(after the existing-path check and `mkdir`): `fs.cp` in copy mode,
`mklink /J` on win32, `fs.symlink` elsewhere. -/
def createLinkPrimitive (pf : Platform) (mode : Mode) (createFails : String → Bool)
    (es : List (String × FsEntry)) (n targetDir : String) :
    Except LinkError (List (String × FsEntry)) :=
  match mode with
  | .copy =>
    if createFails n then .error .cpFailed
    else .ok (setEntry es n ⟨false, .copyOf targetDir⟩)
  | .auto =>
    match pf with
    | .win32 =>
      if createFails n then .error .mklinkFailed
      else .ok (setEntry es n ⟨true, .linkTo targetDir⟩)
    | .posix =>
      if createFails n then .error .symlinkFailed
      else .ok (setEntry es n ⟨true, .linkTo targetDir⟩)

/-- `createLinkToDirectory(linkPath, targetDir, mode)`: if the path exists it
may only be replaced when it is a link, otherwise an error is thrown; then
the parent directory is ensured and the platform/mode primitive runs. -/
def createLinkToDirectory (pf : Platform) (mode : Mode) (rmFails createFails : String → Bool)
    (es : List (String × FsEntry)) (n targetDir : String) :
    Except LinkError (List (String × FsEntry)) :=
  if pathExists es n then
    if isSymlink es n then
      match removeLinkDir rmFails es n with
      | .error e => .error e
      | .ok es' => createLinkPrimitive pf mode createFails es' n targetDir
    else .error .destExistsNotALink
  else createLinkPrimitive pf mode createFails es n targetDir

/-- The mutable run state of one `syncUePluginLinks` invocation: the
destination entries, and the `warnings`, `removed`, `linked` arrays of the
result plus the `newManaged` map. -/
structure RunSt where
  entries : List (String × FsEntry)
  warnings : List Warning
  removed : List LinkRecord
  linked : List LinkRecord
  newManaged : List LinkRecord
deriving DecidableEq, Repr

/-- One iteration of the removal pass (`for (const [pluginName, rec] of managed)`). -/
def removalStep (pf : Platform) (mode : Mode) (destFull : String)
    (desired : List LinkRecord) (rmFails : String → Bool)
    (st : RunSt) (rec : LinkRecord) : RunSt :=
  if mapHas desired rec.pluginName then st
  else
    let linkPath := joinPath pf destFull rec.pluginName
    if pathExists st.entries rec.pluginName then
      if !isSymlink st.entries rec.pluginName ∧ mode ≠ .copy ∧ pf ≠ .win32 then
        { st with
          warnings := st.warnings ++ [Warning.managedNotALink linkPath]
          removed := st.removed ++ [rec] }
      else
        match removeLinkDir rmFails st.entries rec.pluginName with
        | .error _ =>
          { st with warnings := st.warnings ++ [Warning.failedRemove linkPath] }
        | .ok es' =>
          { st with entries := es', removed := st.removed ++ [rec] }
    else
      { st with removed := st.removed ++ [rec] }

/-- The guarded tail of one linking-pass iteration: the
`try { createLinkToDirectory ... } catch { warn }` block. -/
def linkingTryCreate (pf : Platform) (mode : Mode) (destFull : String)
    (rmFails createFails : String → Bool) (st : RunSt) (desired : LinkRecord) : RunSt :=
  let linkPath := joinPath pf destFull desired.pluginName
  match createLinkToDirectory pf mode rmFails createFails st.entries
      desired.pluginName desired.targetDir with
  | .ok es' =>
    { st with
      entries := es'
      newManaged := mapSet st.newManaged desired
      linked := st.linked ++ [desired] }
  | .error _ =>
    { st with warnings := st.warnings ++ [Warning.failedCreate linkPath] }

/-- One iteration of the linking pass
(`for (const [pluginName, desired] of desiredByPlugin)`).  The removal of an
existing already-managed path happens before the `try` block, so its failure
is not caught and propagates as `Except.error`. -/
def linkingStep (pf : Platform) (mode : Mode) (destFull : String)
    (managed : List LinkRecord) (rmFails createFails : String → Bool)
    (st : RunSt) (desired : LinkRecord) : Except LinkError RunSt :=
  let linkPath := joinPath pf destFull desired.pluginName
  let alreadyManaged := mapHas managed desired.pluginName
  if pathExists st.entries desired.pluginName then
    if alreadyManaged then
      match removeLinkDir rmFails st.entries desired.pluginName with
      | .error e => .error e
      | .ok es' =>
        .ok (linkingTryCreate pf mode destFull rmFails createFails
          { st with entries := es' } desired)
    else
      .ok { st with
        warnings := st.warnings ++ [Warning.skippingExistsNotManaged linkPath] }
  else
    .ok (linkingTryCreate pf mode destFull rmFails createFails st desired)

/-- `syncUePluginLinks(workDir, destinationDir, mode)`.  `destFull` is the
resolved destination directory; `discovered` is the return value of
`findPluginsInNodeModules(workDir)`.  A normal return is `.ok` carrying the
`LinkSyncResult` and the final destination state; an uncaught exception is
`.error`. -/
def syncUePluginLinks (pf : Platform) (mode : Mode) (discovered : List LinkRecord)
    (destFull : String) (st : DestState) (rmFails createFails : String → Bool) :
    Except LinkError (LinkSyncResult × DestState) :=
  if discovered.isEmpty && !st.manifest.isSome then
    .ok ({ ok := true, linked := [], removed := [], warnings := [] }, st)
  else
    let managed := loadManifest st.manifest
    let bd := buildDesired discovered
    let run0 : RunSt :=
      { entries := st.entries, warnings := bd.2, removed := [], linked := []
        newManaged := managed }
    let run1 := managed.foldl (removalStep pf mode destFull bd.1 rmFails) run0
    (bd.1.foldlM (linkingStep pf mode destFull managed rmFails createFails) run1).map
      (fun run2 =>
        ({ ok := true, linked := run2.linked, removed := run2.removed
           warnings := run2.warnings },
         { entries := run2.entries, manifest := some run2.newManaged
           destDirCreated := true }))

/-!
## Discovery model

`findPluginsInPackageDir` is modelled on a directory tree: a package
directory is a list of entries, each a file or a sub-directory with its own
entries, in `readdir` order.
-/

/-- A filesystem entry as seen by `readdir(..., { withFileTypes: true })`. -/
inductive FsTree where
  | file (name : String)
  | dir (name : String) (children : List FsTree)

mutual

/-- Number of nodes of a tree (used to bound the fallback loop). -/
def FsTree.size : FsTree → Nat
  | .file _ => 1
  | .dir _ cs => 1 + sizeTrees cs

/-- Total number of nodes of a list of trees. -/
def sizeTrees : List FsTree → Nat
  | [] => 0
  | t :: ts => t.size + sizeTrees ts

end

/-- `const UPLUGIN_EXT = '.uplugin'` -/
def UPLUGIN_EXT : String := ".uplugin"

/-- JavaScript `toLowerCase()` (filenames here are ASCII, for which the
per-character ASCII lowering is exact), written over the character list so
that it evaluates inside the kernel. -/
def strToLower (s : String) : String :=
  ⟨s.data.map Char.toLower⟩

/-- JavaScript `endsWith`, written over the character lists. -/
def strEndsWith (s suffixStr : String) : Bool :=
  suffixStr.data.isSuffixOf s.data

/-- JavaScript `startsWith`, written over the character lists. -/
def strStartsWith (s prefixStr : String) : Bool :=
  prefixStr.data.isPrefixOf s.data

/-- `pluginNameFromUpluginFilename`: `null` unless the lower-cased filename
ends with the extension; otherwise the filename with the extension's length
sliced off the end. -/
def pluginNameFromUpluginFilename (filename : String) : Option String :=
  if strEndsWith (strToLower filename) UPLUGIN_EXT then
    some (filename.take (filename.length - UPLUGIN_EXT.length))
  else none

/-- Shared scan state of `findPluginsInPackageDir`: the `found` array and the
`byName` set (the set is modelled as the list of names in insertion order,
which the source keeps in lock-step with `found`). -/
structure ScanSt where
  found : List LinkRecord
  byName : List String
deriving DecidableEq, Repr

/-- `addFromDir(dir)`: scan the files of one directory for plugin
descriptors, skipping falsy (empty) plugin names and names already seen.
`packageName` is filled in by the caller `scanPackageDir`; the model carries
it through so that discovery directly yields `LinkRecord`s. -/
def addFromDir (packageName dirPath : String) (entries : List FsTree)
    (st : ScanSt) : ScanSt :=
  entries.foldl
    (fun st ent =>
      match ent with
      | .dir _ _ => st
      | .file name =>
        match pluginNameFromUpluginFilename name with
        | none => st
        | some pn =>
          if pn = "" ∨ st.byName.contains pn then st
          else
            { found := st.found ++ [⟨pn, packageName, dirPath⟩]
              byName := st.byName ++ [pn] })
    st

/-- `isDirectory(path.join(packageDir, name))` for the tree model: the
children of the sub-directory with that name, if present. -/
def findDirChildren (entries : List FsTree) (name : String) : Option (List FsTree) :=
  entries.findSome?
    (fun ent =>
      match ent with
      | .dir n cs => if n = name then some cs else none
      | .file _ => none)

/-- The first two discovery strategies, exactly as the source runs them both:
the package root, then the conventional `Plugins` sub-folder plus one level
of its non-hidden sub-directories. -/
def scanRootAndConventional (packageName pkgPath : String)
    (children : List FsTree) : ScanSt :=
  let st := addFromDir packageName pkgPath children ⟨[], []⟩
  match findDirChildren children "Plugins" with
  | none => st
  | some pcs =>
    let st := addFromDir packageName (pkgPath ++ "/Plugins") pcs st
    pcs.foldl
      (fun st ent =>
        match ent with
        | .file _ => st
        | .dir n cs =>
          if strStartsWith n "." then st
          else addFromDir packageName (pkgPath ++ "/Plugins/" ++ n) cs st)
      st

/-- `const maxDepth = 6` -/
def maxDepth : Nat := 6

/-- One frame of the fallback scan's explicit stack: directory path, its
entries, and its depth. -/
structure ScanFrame where
  dirPath : String
  entries : List FsTree
  depth : Nat

/-- Directories a popped frame pushes, in `readdir` order (dependency and
version-control folders and hidden folders are skipped). -/
def framePushes (fr : ScanFrame) : List ScanFrame :=
  fr.entries.foldl
    (fun acc ent =>
      match ent with
      | .file _ => acc
      | .dir n cs =>
        if n = "node_modules" ∨ n = ".git" then acc
        else if strStartsWith n "." then acc
        else acc ++ [⟨fr.dirPath ++ "/" ++ n, cs, fr.depth + 1⟩])
    []

/-- The `while (stack.length)` loop of the fallback scan.  JavaScript
`pop`/`push` act on the array's end; the model keeps the top of the stack at
the head, so pushing a popped frame's sub-directories prepends them in
reversed `readdir` order.  Within one frame, files extend `found` in
`readdir` order, interleaving being irrelevant because files touch only the
scan state and directories only the stack.  `fuel` bounds the number of
iterations; every iteration pops one frame and each frame corresponds to a
distinct directory node of the tree, so any fuel larger than the total node
count makes the model exhaust the stack exactly as the source loop does. -/
def fallbackLoop (packageName : String) (fuel : Nat) (stack : List ScanFrame)
    (st : ScanSt) : ScanSt :=
  match fuel with
  | 0 => st
  | fuel + 1 =>
    match stack with
    | [] => st
    | fr :: rest =>
      if fr.depth > maxDepth then fallbackLoop packageName fuel rest st
      else
        fallbackLoop packageName fuel ((framePushes fr).reverse ++ rest)
          (addFromDir packageName fr.dirPath fr.entries st)

/-- Bounded recursive fallback scan (`// fallback: limited recursive scan`).
The per-frame handling of files is exactly the body of `addFromDir`, so the
model reuses it. -/
def fallbackScan (packageName pkgPath : String) (children : List FsTree)
    (st : ScanSt) : ScanSt :=
  fallbackLoop packageName (sizeTrees children + 1) [⟨pkgPath, children, 0⟩] st

/-- `findPluginsInPackageDir(packageDir)` for a package directory with the
given `readdir` entries: both the package-root scan and the conventional
`Plugins` scan always run; only the bounded recursive fallback is gated on
the first two having found nothing.  `scanPackageDir` tags every found
plugin with the package name, which the model threads through directly. -/
def findPluginsInPackageDir (packageName pkgPath : String)
    (children : List FsTree) : List LinkRecord :=
  let st := scanRootAndConventional packageName pkgPath children
  if st.found.length ≠ 0 then st.found
  else (fallbackScan packageName pkgPath children st).found

/-- Invariant of the discovery scan state: the `byName` set is exactly the
set of names of `found`, kept in insertion order, with no duplicates (the
source pushes to `found` and adds to `byName` only together, and only for
names not yet in `byName`). -/
def ScanInv (st : ScanSt) : Prop :=
  st.byName = st.found.map (fun r => r.pluginName) ∧ st.byName.Nodup

/-!
## Copy-mode filter model

In copy mode `createLinkToDirectory` passes `fs.cp` a filter.  Absolute paths
are modelled as lists of path components; `fs.cp` hands the filter the source
path and the destination path of each entry, and every destination path lies
under `linkPath`, so it is `linkPath ++ rel` for the destination-relative
component list `rel`.
-/

/-- `path.relative(base, p)` for `p` lying under `base` (the only case
`fs.cp` produces): drop the leading `base` components. -/
def pathRelative (base p : List String) : List String :=
  p.drop base.length

/-- The `shouldCopy` closure of `createLinkToDirectory`: relativize the
destination path against `linkPath`, accept the root, and otherwise require
that no component is a dependency-install or version-control folder. -/
def shouldCopy (linkPath destPath : List String) : Bool :=
  let rel := pathRelative linkPath destPath
  if rel.isEmpty then true
  else !(rel.contains "node_modules") && !(rel.contains ".git")

/-- The filter as handed to `fs.cp`: `(src, dest) => shouldCopy(src, dest)`,
where `shouldCopy` ignores its source-path argument. -/
def cpFilter (linkPath _srcPath destPath : List String) : Bool :=
  shouldCopy linkPath destPath

/-- The option bag of the `fs.cp` call in copy mode. -/
structure CpOptions where
  recursive : Bool
  force : Bool
  dereference : Bool
deriving DecidableEq, Repr

/-- `{ recursive: true, force: true, dereference: true }` -/
def copyCpOptions : CpOptions :=
  { recursive := true, force := true, dereference := true }

/-- The exclusion predicate as the specification words it: an entry is copied
iff its destination-relative path contains neither `node_modules` nor `.git`
as a path component, the root itself always being copied. -/
def shouldCopySpecModel (rel : List String) : Bool :=
  rel.isEmpty || (!(rel.contains "node_modules") && !(rel.contains ".git"))


/-!
## Helper lemmas: destination entries and JavaScript maps
-/

theorem getEntry_cons (p : String × FsEntry) (t : List (String × FsEntry)) (m : String) :
    getEntry (p :: t) m = if p.1 = m then some p.2 else getEntry t m := by
  by_cases h : p.1 = m <;> simp [getEntry, List.find?_cons, h]

theorem eraseEntry_cons (p : String × FsEntry) (t : List (String × FsEntry)) (n : String) :
    eraseEntry (p :: t) n = if p.1 = n then eraseEntry t n else p :: eraseEntry t n := by
  by_cases h : p.1 = n <;> simp [eraseEntry, h]

theorem getEntry_eraseEntry_self (es : List (String × FsEntry)) (n : String) :
    getEntry (eraseEntry es n) n = none := by
  induction es with
  | nil => rfl
  | cons p t ih =>
    rw [eraseEntry_cons]
    by_cases h : p.1 = n
    · simpa [h] using ih
    · rw [if_neg h, getEntry_cons, if_neg h]; exact ih

theorem getEntry_eraseEntry_ne (es : List (String × FsEntry)) (n m : String)
    (h : m ≠ n) : getEntry (eraseEntry es n) m = getEntry es m := by
  induction es with
  | nil => rfl
  | cons p t ih =>
    rw [eraseEntry_cons]
    by_cases h1 : p.1 = n
    · have h2 : p.1 ≠ m := fun e => h (by rw [← e, h1])
      rw [if_pos h1, getEntry_cons, if_neg h2]; exact ih
    · rw [if_neg h1, getEntry_cons, getEntry_cons]
      by_cases h2 : p.1 = m
      · rw [if_pos h2, if_pos h2]
      · rw [if_neg h2, if_neg h2]; exact ih

theorem getEntry_append (es fs : List (String × FsEntry)) (m : String) :
    getEntry (es ++ fs) m =
      match getEntry es m with
      | some e => some e
      | none => getEntry fs m := by
  induction es with
  | nil => simp [getEntry]
  | cons p t ih =>
    rw [List.cons_append, getEntry_cons, getEntry_cons]
    by_cases h : p.1 = m
    · rw [if_pos h, if_pos h]
    · rw [if_neg h, if_neg h]; exact ih

theorem getEntry_setEntry_self (es : List (String × FsEntry)) (n : String)
    (e : FsEntry) : getEntry (setEntry es n e) n = some e := by
  rw [setEntry, getEntry_append, getEntry_eraseEntry_self]
  simp [getEntry_cons]

theorem getEntry_setEntry_ne (es : List (String × FsEntry)) (n m : String)
    (e : FsEntry) (h : m ≠ n) :
    getEntry (setEntry es n e) m = getEntry es m := by
  rw [setEntry, getEntry_append, getEntry_eraseEntry_ne es n m h]
  cases hg : getEntry es m with
  | some e' => rfl
  | none => rw [getEntry_cons, if_neg (fun hx => h hx.symm)]; rfl

theorem mapHas_eq_false_iff (m : List LinkRecord) (n : String) :
    mapHas m n = false ↔ ∀ r ∈ m, r.pluginName ≠ n := by
  simp [mapHas, List.any_eq_true]

theorem mapHas_eq_true_iff (m : List LinkRecord) (n : String) :
    mapHas m n = true ↔ ∃ r ∈ m, r.pluginName = n := by
  simp [mapHas, List.any_eq_true]

theorem mapGet_cons (x : LinkRecord) (t : List LinkRecord) (n : String) :
    mapGet (x :: t) n = if x.pluginName = n then some x else mapGet t n := by
  by_cases h : x.pluginName = n <;> simp [mapGet, List.find?_cons, h]

theorem mapHas_cons (x : LinkRecord) (t : List LinkRecord) (n : String) :
    mapHas (x :: t) n = ((x.pluginName = n : Bool) || mapHas t n) := by
  simp [mapHas]

theorem mapGet_append (m₁ m₂ : List LinkRecord) (n : String) :
    mapGet (m₁ ++ m₂) n =
      match mapGet m₁ n with
      | some r => some r
      | none => mapGet m₂ n := by
  induction m₁ with
  | nil => simp [mapGet]
  | cons x t ih =>
    rw [List.cons_append, mapGet_cons, mapGet_cons]
    by_cases h : x.pluginName = n
    · rw [if_pos h, if_pos h]
    · rw [if_neg h, if_neg h]; exact ih

theorem mapGet_map_update_self (m : List LinkRecord) (r : LinkRecord)
    (hh : mapHas m r.pluginName = true) :
    mapGet (m.map (fun x => if x.pluginName = r.pluginName then r else x))
      r.pluginName = some r := by
  induction m with
  | nil => simp [mapHas] at hh
  | cons x t ih =>
    rw [List.map_cons, mapGet_cons]
    by_cases h1 : x.pluginName = r.pluginName
    · simp [h1]
    · rw [if_neg h1, if_neg h1]
      have hh' : mapHas t r.pluginName = true := by
        rw [mapHas_eq_true_iff] at hh ⊢
        rcases hh with ⟨a, ha, hn⟩
        rcases List.mem_cons.mp ha with he | he
        · exact absurd (he ▸ hn) h1
        · exact ⟨a, he, hn⟩
      exact ih hh'

theorem mapGet_map_update_ne (m : List LinkRecord) (r : LinkRecord) (n : String)
    (h : n ≠ r.pluginName) :
    mapGet (m.map (fun x => if x.pluginName = r.pluginName then r else x)) n =
      mapGet m n := by
  induction m with
  | nil => rfl
  | cons x t ih =>
    rw [List.map_cons, mapGet_cons, mapGet_cons]
    by_cases h1 : x.pluginName = r.pluginName
    · have h2 : r.pluginName ≠ n := fun e => h e.symm
      have h3 : x.pluginName ≠ n := by rw [h1]; exact h2
      rw [if_pos h1, if_neg h2, if_neg h3]; exact ih
    · rw [if_neg h1]
      by_cases h2 : x.pluginName = n
      · rw [if_pos h2, if_pos h2]
      · rw [if_neg h2, if_neg h2]; exact ih

theorem mapHas_eq_isSome_mapGet (m : List LinkRecord) (n : String) :
    mapHas m n = (mapGet m n).isSome := by
  induction m with
  | nil => rfl
  | cons x t ih =>
    rw [mapHas_cons, mapGet_cons]
    by_cases h : x.pluginName = n
    · simp [h]
    · simp [h, ih]

theorem mapGet_mapSet_self (m : List LinkRecord) (r : LinkRecord) :
    mapGet (mapSet m r) r.pluginName = some r := by
  unfold mapSet
  by_cases hh : mapHas m r.pluginName
  · rw [if_pos hh]; exact mapGet_map_update_self m r hh
  · rw [if_neg hh, mapGet_append]
    have h0 : mapGet m r.pluginName = none := by
      cases hg : mapGet m r.pluginName with
      | none => rfl
      | some x =>
        rw [Bool.not_eq_true, mapHas_eq_isSome_mapGet, hg] at hh
        simp at hh
    rw [h0]
    simp [mapGet_cons]

theorem mapGet_mapSet_ne (m : List LinkRecord) (r : LinkRecord) (n : String)
    (h : n ≠ r.pluginName) : mapGet (mapSet m r) n = mapGet m n := by
  unfold mapSet
  by_cases hh : mapHas m r.pluginName
  · rw [if_pos hh]; exact mapGet_map_update_ne m r n h
  · rw [if_neg hh, mapGet_append]
    cases hg : mapGet m n with
    | some x => rfl
    | none => rw [mapGet_cons, if_neg (fun hx => h hx.symm)]; rfl

theorem mapGet_eq_some (m : List LinkRecord) (n : String) (r : LinkRecord)
    (h : mapGet m n = some r) : r ∈ m ∧ r.pluginName = n := by
  unfold mapGet at h
  exact ⟨List.mem_of_find?_eq_some h, by simpa using List.find?_some h⟩

theorem mapHas_append_single (m : List LinkRecord) (r : LinkRecord) (n : String) :
    mapHas (m ++ [r]) n = (mapHas m n || (r.pluginName = n : Bool)) := by
  simp [mapHas]

theorem mapHas_mapSet (m : List LinkRecord) (r : LinkRecord) (n : String) :
    mapHas (mapSet m r) n = (mapHas m n || (r.pluginName = n : Bool)) := by
  by_cases hn : r.pluginName = n
  · subst hn
    rw [mapHas_eq_isSome_mapGet, mapGet_mapSet_self]
    simp
  · rw [mapHas_eq_isSome_mapGet, mapGet_mapSet_ne m r n (fun hx => hn hx.symm),
      ← mapHas_eq_isSome_mapGet]
    simp [hn]

theorem names_mapSet_nodup (m : List LinkRecord) (r : LinkRecord)
    (h : List.Nodup (m.map (fun x => x.pluginName))) :
    List.Nodup ((mapSet m r).map (fun x => x.pluginName)) := by
  unfold mapSet
  by_cases hh : mapHas m r.pluginName
  · rw [if_pos hh]
    have he : (m.map (fun x => if x.pluginName = r.pluginName then r else x)).map
        (fun x => x.pluginName) = m.map (fun x => x.pluginName) := by
      rw [List.map_map]
      apply List.map_congr_left
      intro x _
      by_cases hx : x.pluginName = r.pluginName
      · simp [hx]
      · simp [hx]
    rw [he]; exact h
  · rw [if_neg hh, List.map_append]
    rw [Bool.not_eq_true, mapHas_eq_false_iff] at hh
    simp only [List.map_cons, List.map_nil]
    rw [List.nodup_append]
    refine ⟨h, List.nodup_singleton _, ?_⟩
    intro a ha
    simp only [List.mem_map] at ha
    rcases ha with ⟨x, hx, he⟩
    simp only [List.mem_singleton]
    intro hc
    exact hh x hx (by rw [he, hc])

theorem loadManifest_names_nodup (om : Option (List LinkRecord)) :
    List.Nodup ((loadManifest om).map (fun x => x.pluginName)) := by
  cases om with
  | none => simp [loadManifest]
  | some recs =>
    have aux : ∀ (l m : List LinkRecord),
        List.Nodup (m.map (fun x => x.pluginName)) →
        List.Nodup
          ((l.foldl (fun m r => if r.pluginName ≠ "" then mapSet m r else m) m).map
            (fun x => x.pluginName)) := by
      intro l
      induction l with
      | nil => intro m hm; simpa using hm
      | cons r t ih =>
        intro m hm
        rw [List.foldl_cons]
        by_cases hr : r.pluginName ≠ ""
        · rw [if_pos hr]
          exact ih _ (names_mapSet_nodup m r hm)
        · rw [if_neg hr]
          exact ih _ hm
    simpa [loadManifest] using aux recs [] (by simp)

theorem desiredStep_dup (acc : List LinkRecord × List Warning) (rec : LinkRecord)
    (h : mapHas acc.1 rec.pluginName = true) :
    desiredStep acc rec = (acc.1, acc.2 ++ [Warning.duplicatePlugin rec.pluginName]) := by
  unfold desiredStep
  rw [if_pos h]

theorem desiredStep_new (acc : List LinkRecord × List Warning) (rec : LinkRecord)
    (h : mapHas acc.1 rec.pluginName = false) :
    desiredStep acc rec = (mapSet acc.1 rec, acc.2) := by
  unfold desiredStep
  rw [if_neg (by rw [h]; exact Bool.false_ne_true)]

theorem buildDesired_go_names_nodup (l : List LinkRecord)
    (acc : List LinkRecord × List Warning)
    (h : List.Nodup (acc.1.map (fun x => x.pluginName))) :
    List.Nodup ((l.foldl desiredStep acc).1.map (fun x => x.pluginName)) := by
  induction l generalizing acc with
  | nil => simpa using h
  | cons r t ih =>
    rw [List.foldl_cons]
    by_cases hh : mapHas acc.1 r.pluginName
    · rw [desiredStep_dup acc r hh]
      exact ih _ h
    · rw [desiredStep_new acc r (by simpa using hh)]
      exact ih _ (names_mapSet_nodup acc.1 r h)

theorem buildDesired_names_nodup (l : List LinkRecord) :
    List.Nodup ((buildDesired l).1.map (fun x => x.pluginName)) := by
  unfold buildDesired
  exact buildDesired_go_names_nodup l ([], []) (by simp)

theorem buildDesired_go_has (l : List LinkRecord)
    (acc : List LinkRecord × List Warning) (n : String) :
    mapHas (l.foldl desiredStep acc).1 n =
      (mapHas acc.1 n || l.any (fun r => r.pluginName = n)) := by
  induction l generalizing acc with
  | nil => simp
  | cons r t ih =>
    rw [List.foldl_cons]
    by_cases hh : mapHas acc.1 r.pluginName
    · rw [desiredStep_dup acc r hh, ih]
      by_cases hr : r.pluginName = n
      · have hn : mapHas acc.1 n = true := by rw [← hr]; exact hh
        simp [hn, hr]
      · simp [hr]
    · rw [desiredStep_new acc r (by simpa using hh), ih, mapHas_mapSet]
      simp [Bool.or_assoc]

theorem buildDesired_has (l : List LinkRecord) (n : String) :
    mapHas (buildDesired l).1 n = l.any (fun r => r.pluginName = n) := by
  unfold buildDesired
  rw [buildDesired_go_has]
  simp [mapHas]

theorem mapSet_not_has (m : List LinkRecord) (r : LinkRecord)
    (h : mapHas m r.pluginName = false) : mapSet m r = m ++ [r] := by
  unfold mapSet
  rw [if_neg (by rw [h]; exact Bool.false_ne_true)]

theorem buildDesired_go_filter (l : List LinkRecord)
    (acc : List LinkRecord × List Warning) (n : String) :
    (l.foldl desiredStep acc).1.filter (fun r => r.pluginName = n) =
      (if mapHas acc.1 n = true then acc.1.filter (fun r => r.pluginName = n)
       else acc.1.filter (fun r => r.pluginName = n) ++
         (l.find? (fun r => r.pluginName = n)).toList) := by
  induction l generalizing acc with
  | nil =>
    rw [List.foldl_nil]
    by_cases h : mapHas acc.1 n = true
    · rw [if_pos h]
    · rw [if_neg h]
      simp
  | cons r t ih =>
    rw [List.foldl_cons]
    by_cases hh : mapHas acc.1 r.pluginName = true
    · rw [desiredStep_dup acc r hh, ih]
      by_cases hn : mapHas acc.1 n = true
      · rw [if_pos hn, if_pos hn]
      · rw [if_neg hn, if_neg hn]
        have hr : r.pluginName ≠ n := by
          intro he
          apply hn
          rw [← he]
          exact hh
        rw [List.find?_cons_of_neg _ (by simpa using hr)]
    · have hh' : mapHas acc.1 r.pluginName = false := by simpa using hh
      rw [desiredStep_new acc r hh', ih]
      dsimp only
      by_cases hr : r.pluginName = n
      · have hn : mapHas acc.1 n = false := by rw [← hr]; exact hh'
        have hhas1 : mapHas (mapSet acc.1 r) n = true := by
          rw [mapHas_mapSet, hn, hr]
          simp
        rw [if_pos hhas1, if_neg (by rw [hn]; exact Bool.false_ne_true)]
        rw [mapSet_not_has acc.1 r hh', List.filter_append]
        rw [List.find?_cons_of_pos _ (by simpa using hr)]
        simp [hr]
      · have hf : (mapSet acc.1 r).filter (fun x => x.pluginName = n) =
            acc.1.filter (fun x => x.pluginName = n) := by
          rw [mapSet_not_has acc.1 r hh', List.filter_append]
          simp [hr]
        have hhas : mapHas (mapSet acc.1 r) n = mapHas acc.1 n := by
          rw [mapHas_mapSet]
          simp [hr]
        rw [List.find?_cons_of_neg _ (by simpa using hr), hhas, hf]

theorem buildDesired_filter (l : List LinkRecord) (n : String) :
    (buildDesired l).1.filter (fun r => r.pluginName = n) =
      (l.find? (fun r => r.pluginName = n)).toList := by
  unfold buildDesired
  rw [buildDesired_go_filter]
  simp [mapHas]

theorem buildDesired_go_warnings_mono (l : List LinkRecord)
    (acc : List LinkRecord × List Warning) (w : Warning) (h : w ∈ acc.2) :
    w ∈ (l.foldl desiredStep acc).2 := by
  induction l generalizing acc with
  | nil => simpa using h
  | cons r t ih =>
    rw [List.foldl_cons]
    by_cases hh : mapHas acc.1 r.pluginName = true
    · rw [desiredStep_dup acc r hh]
      exact ih _ (List.mem_append_left _ h)
    · rw [desiredStep_new acc r (by simpa using hh)]
      exact ih _ h

theorem buildDesired_go_dup_warning (l : List LinkRecord)
    (acc : List LinkRecord × List Warning) (n : String)
    (h : Warning.duplicatePlugin n ∈ acc.2 ∨
         (mapHas acc.1 n = true ∧ 1 ≤ l.countP (fun r => r.pluginName = n)) ∨
         2 ≤ l.countP (fun r => r.pluginName = n)) :
    Warning.duplicatePlugin n ∈ (l.foldl desiredStep acc).2 := by
  induction l generalizing acc with
  | nil =>
    rw [List.foldl_nil]
    rcases h with h | ⟨_, h2⟩ | h3
    · exact h
    · simp at h2
    · simp at h3
  | cons r t ih =>
    rw [List.foldl_cons]
    by_cases hh : mapHas acc.1 r.pluginName = true
    · rw [desiredStep_dup acc r hh]
      by_cases hr : r.pluginName = n
      · exact buildDesired_go_warnings_mono t _ _
          (by rw [hr]; exact List.mem_append_right _ (List.mem_singleton.mpr rfl))
      · apply ih
        rcases h with h | ⟨h2a, h2b⟩ | h3
        · exact Or.inl (List.mem_append_left _ h)
        · rw [List.countP_cons_of_neg _ _ (by simpa using hr)] at h2b
          exact Or.inr (Or.inl ⟨h2a, h2b⟩)
        · rw [List.countP_cons_of_neg _ _ (by simpa using hr)] at h3
          exact Or.inr (Or.inr h3)
    · have hh' : mapHas acc.1 r.pluginName = false := by simpa using hh
      rw [desiredStep_new acc r hh']
      apply ih
      by_cases hr : r.pluginName = n
      · rcases h with h | ⟨h2a, _⟩ | h3
        · exact Or.inl h
        · rw [← hr, hh'] at h2a
          exact absurd h2a Bool.false_ne_true
        · rw [List.countP_cons_of_pos _ _ (by simpa using hr)] at h3
          refine Or.inr (Or.inl ⟨?_, by omega⟩)
          rw [mapHas_mapSet, hr]
          simp
      · rcases h with h | ⟨h2a, h2b⟩ | h3
        · exact Or.inl h
        · rw [List.countP_cons_of_neg _ _ (by simpa using hr)] at h2b
          refine Or.inr (Or.inl ⟨?_, h2b⟩)
          rw [mapHas_mapSet]
          simp [h2a]
        · rw [List.countP_cons_of_neg _ _ (by simpa using hr)] at h3
          exact Or.inr (Or.inr h3)

theorem buildDesired_dup_warning (l : List LinkRecord) (n : String)
    (h : 2 ≤ l.countP (fun r => r.pluginName = n)) :
    Warning.duplicatePlugin n ∈ (buildDesired l).2 := by
  unfold buildDesired
  exact buildDesired_go_dup_warning l ([], []) n (Or.inr (Or.inr h))

/-!
## Helper lemmas: the removal pass
-/

theorem removalStep_desired (pf : Platform) (mode : Mode) (destFull : String)
    (desired : List LinkRecord) (rmFails : String → Bool) (st : RunSt)
    (rec : LinkRecord) (h : mapHas desired rec.pluginName = true) :
    removalStep pf mode destFull desired rmFails st rec = st := by
  unfold removalStep
  rw [if_pos h]

theorem removalStep_missing (pf : Platform) (mode : Mode) (destFull : String)
    (desired : List LinkRecord) (rmFails : String → Bool) (st : RunSt)
    (rec : LinkRecord) (h1 : mapHas desired rec.pluginName = false)
    (h2 : pathExists st.entries rec.pluginName = false) :
    removalStep pf mode destFull desired rmFails st rec =
      { st with removed := st.removed ++ [rec] } := by
  unfold removalStep
  rw [if_neg (by rw [h1]; exact Bool.false_ne_true),
    if_neg (by rw [h2]; exact Bool.false_ne_true)]

theorem removalStep_foreign (pf : Platform) (mode : Mode) (destFull : String)
    (desired : List LinkRecord) (rmFails : String → Bool) (st : RunSt)
    (rec : LinkRecord) (h1 : mapHas desired rec.pluginName = false)
    (h2 : pathExists st.entries rec.pluginName = true)
    (h3 : isSymlink st.entries rec.pluginName = false)
    (h4 : mode ≠ Mode.copy) (h5 : pf ≠ Platform.win32) :
    removalStep pf mode destFull desired rmFails st rec =
      { st with
        warnings := st.warnings ++
          [Warning.managedNotALink (joinPath pf destFull rec.pluginName)]
        removed := st.removed ++ [rec] } := by
  unfold removalStep
  rw [if_neg (by rw [h1]; exact Bool.false_ne_true), if_pos h2,
    if_pos ⟨by rw [h3]; rfl, h4, h5⟩]

theorem removalStep_rmFail (pf : Platform) (mode : Mode) (destFull : String)
    (desired : List LinkRecord) (rmFails : String → Bool) (st : RunSt)
    (rec : LinkRecord) (h1 : mapHas desired rec.pluginName = false)
    (h2 : pathExists st.entries rec.pluginName = true)
    (h3 : ¬((!isSymlink st.entries rec.pluginName) = true ∧
      mode ≠ Mode.copy ∧ pf ≠ Platform.win32))
    (h4 : rmFails rec.pluginName = true) :
    removalStep pf mode destFull desired rmFails st rec =
      { st with
        warnings := st.warnings ++
          [Warning.failedRemove (joinPath pf destFull rec.pluginName)] } := by
  unfold removalStep removeLinkDir
  rw [if_neg (by rw [h1]; exact Bool.false_ne_true), if_pos h2, if_neg h3,
    if_pos h4]

theorem removalStep_rmOk (pf : Platform) (mode : Mode) (destFull : String)
    (desired : List LinkRecord) (rmFails : String → Bool) (st : RunSt)
    (rec : LinkRecord) (h1 : mapHas desired rec.pluginName = false)
    (h2 : pathExists st.entries rec.pluginName = true)
    (h3 : ¬((!isSymlink st.entries rec.pluginName) = true ∧
      mode ≠ Mode.copy ∧ pf ≠ Platform.win32))
    (h4 : rmFails rec.pluginName = false) :
    removalStep pf mode destFull desired rmFails st rec =
      { st with
        entries := eraseEntry st.entries rec.pluginName
        removed := st.removed ++ [rec] } := by
  unfold removalStep removeLinkDir
  rw [if_neg (by rw [h1]; exact Bool.false_ne_true), if_pos h2, if_neg h3,
    if_neg (by rw [h4]; exact Bool.false_ne_true)]

theorem removalStep_cases (pf : Platform) (mode : Mode) (destFull : String)
    (desired : List LinkRecord) (rmFails : String → Bool) (st : RunSt)
    (rec : LinkRecord) :
    removalStep pf mode destFull desired rmFails st rec = st ∨
    removalStep pf mode destFull desired rmFails st rec =
      { st with removed := st.removed ++ [rec] } ∨
    removalStep pf mode destFull desired rmFails st rec =
      { st with
        warnings := st.warnings ++
          [Warning.managedNotALink (joinPath pf destFull rec.pluginName)]
        removed := st.removed ++ [rec] } ∨
    removalStep pf mode destFull desired rmFails st rec =
      { st with
        warnings := st.warnings ++
          [Warning.failedRemove (joinPath pf destFull rec.pluginName)] } ∨
    removalStep pf mode destFull desired rmFails st rec =
      { st with
        entries := eraseEntry st.entries rec.pluginName
        removed := st.removed ++ [rec] } := by
  by_cases h1 : mapHas desired rec.pluginName = true
  · exact Or.inl (removalStep_desired pf mode destFull desired rmFails st rec h1)
  · have h1' : mapHas desired rec.pluginName = false := by simpa using h1
    by_cases h2 : pathExists st.entries rec.pluginName = true
    · by_cases h3 : (!isSymlink st.entries rec.pluginName) = true ∧
        mode ≠ Mode.copy ∧ pf ≠ Platform.win32
      · refine Or.inr (Or.inr (Or.inl ?_))
        exact removalStep_foreign pf mode destFull desired rmFails st rec h1' h2
          (by simpa using h3.1) h3.2.1 h3.2.2
      · by_cases h4 : rmFails rec.pluginName = true
        · exact Or.inr (Or.inr (Or.inr (Or.inl
            (removalStep_rmFail pf mode destFull desired rmFails st rec h1' h2 h3 h4))))
        · exact Or.inr (Or.inr (Or.inr (Or.inr
            (removalStep_rmOk pf mode destFull desired rmFails st rec h1' h2 h3
              (by simpa using h4)))))
    · have h2' : pathExists st.entries rec.pluginName = false := by simpa using h2
      exact Or.inr (Or.inl
        (removalStep_missing pf mode destFull desired rmFails st rec h1' h2'))

theorem removalStep_entries_ne (pf : Platform) (mode : Mode) (destFull : String)
    (desired : List LinkRecord) (rmFails : String → Bool) (st : RunSt)
    (rec : LinkRecord) (n : String) (h : rec.pluginName ≠ n) :
    getEntry (removalStep pf mode destFull desired rmFails st rec).entries n =
      getEntry st.entries n := by
  rcases removalStep_cases pf mode destFull desired rmFails st rec with
    he | he | he | he | he <;> rw [he]
  exact getEntry_eraseEntry_ne st.entries rec.pluginName n (Ne.symm h)

theorem removalStep_warnings_mono (pf : Platform) (mode : Mode) (destFull : String)
    (desired : List LinkRecord) (rmFails : String → Bool) (st : RunSt)
    (rec : LinkRecord) (w : Warning) (h : w ∈ st.warnings) :
    w ∈ (removalStep pf mode destFull desired rmFails st rec).warnings := by
  rcases removalStep_cases pf mode destFull desired rmFails st rec with
    he | he | he | he | he <;> rw [he] <;>
    first
      | exact h
      | exact List.mem_append_left _ h

theorem removalStep_removed_mono (pf : Platform) (mode : Mode) (destFull : String)
    (desired : List LinkRecord) (rmFails : String → Bool) (st : RunSt)
    (rec : LinkRecord) (r : LinkRecord) (h : r ∈ st.removed) :
    r ∈ (removalStep pf mode destFull desired rmFails st rec).removed := by
  rcases removalStep_cases pf mode destFull desired rmFails st rec with
    he | he | he | he | he <;> rw [he] <;>
    first
      | exact h
      | exact List.mem_append_left _ h

theorem removalStep_removed_sub (pf : Platform) (mode : Mode) (destFull : String)
    (desired : List LinkRecord) (rmFails : String → Bool) (st : RunSt)
    (rec : LinkRecord) (r : LinkRecord)
    (h : r ∈ (removalStep pf mode destFull desired rmFails st rec).removed) :
    r ∈ st.removed ∨ r = rec := by
  rcases removalStep_cases pf mode destFull desired rmFails st rec with
    he | he | he | he | he <;> rw [he] at h <;>
    first
      | exact Or.inl h
      | (rcases List.mem_append.mp h with h | h
         · exact Or.inl h
         · exact Or.inr (List.mem_singleton.mp h))

theorem removalStep_linked_eq (pf : Platform) (mode : Mode) (destFull : String)
    (desired : List LinkRecord) (rmFails : String → Bool) (st : RunSt)
    (rec : LinkRecord) :
    (removalStep pf mode destFull desired rmFails st rec).linked = st.linked := by
  rcases removalStep_cases pf mode destFull desired rmFails st rec with
    he | he | he | he | he <;> rw [he]

theorem removalStep_newManaged_eq (pf : Platform) (mode : Mode) (destFull : String)
    (desired : List LinkRecord) (rmFails : String → Bool) (st : RunSt)
    (rec : LinkRecord) :
    (removalStep pf mode destFull desired rmFails st rec).newManaged =
      st.newManaged := by
  rcases removalStep_cases pf mode destFull desired rmFails st rec with
    he | he | he | he | he <;> rw [he]

theorem removalFold_linked (pf : Platform) (mode : Mode) (destFull : String)
    (desired : List LinkRecord) (rmFails : String → Bool) (l : List LinkRecord)
    (st : RunSt) :
    (l.foldl (removalStep pf mode destFull desired rmFails) st).linked =
      st.linked := by
  induction l generalizing st with
  | nil => rfl
  | cons rec t ih =>
    rw [List.foldl_cons, ih, removalStep_linked_eq]

theorem removalFold_newManaged (pf : Platform) (mode : Mode) (destFull : String)
    (desired : List LinkRecord) (rmFails : String → Bool) (l : List LinkRecord)
    (st : RunSt) :
    (l.foldl (removalStep pf mode destFull desired rmFails) st).newManaged =
      st.newManaged := by
  induction l generalizing st with
  | nil => rfl
  | cons rec t ih =>
    rw [List.foldl_cons, ih, removalStep_newManaged_eq]

theorem removalFold_warnings_mono (pf : Platform) (mode : Mode) (destFull : String)
    (desired : List LinkRecord) (rmFails : String → Bool) (l : List LinkRecord)
    (st : RunSt) (w : Warning) (h : w ∈ st.warnings) :
    w ∈ (l.foldl (removalStep pf mode destFull desired rmFails) st).warnings := by
  induction l generalizing st with
  | nil => simpa using h
  | cons rec t ih =>
    rw [List.foldl_cons]
    exact ih _ (removalStep_warnings_mono pf mode destFull desired rmFails st rec w h)

theorem removalFold_removed_mono (pf : Platform) (mode : Mode) (destFull : String)
    (desired : List LinkRecord) (rmFails : String → Bool) (l : List LinkRecord)
    (st : RunSt) (r : LinkRecord) (h : r ∈ st.removed) :
    r ∈ (l.foldl (removalStep pf mode destFull desired rmFails) st).removed := by
  induction l generalizing st with
  | nil => simpa using h
  | cons rec t ih =>
    rw [List.foldl_cons]
    exact ih _ (removalStep_removed_mono pf mode destFull desired rmFails st rec r h)

theorem removalFold_removed_sub (pf : Platform) (mode : Mode) (destFull : String)
    (desired : List LinkRecord) (rmFails : String → Bool) (l : List LinkRecord)
    (st : RunSt) (r : LinkRecord)
    (h : r ∈ (l.foldl (removalStep pf mode destFull desired rmFails) st).removed) :
    r ∈ st.removed ∨ r ∈ l := by
  induction l generalizing st with
  | nil => exact Or.inl (by simpa using h)
  | cons rec t ih =>
    rw [List.foldl_cons] at h
    rcases ih _ h with h1 | h1
    · rcases removalStep_removed_sub pf mode destFull desired rmFails st rec r h1 with
        h2 | h2
      · exact Or.inl h2
      · exact Or.inr (by rw [h2]; exact List.mem_cons_self _ _)
    · exact Or.inr (List.mem_cons_of_mem _ h1)

theorem removalFold_entries_ne (pf : Platform) (mode : Mode) (destFull : String)
    (desired : List LinkRecord) (rmFails : String → Bool) (l : List LinkRecord)
    (st : RunSt) (n : String) (h : ∀ r ∈ l, r.pluginName ≠ n) :
    getEntry (l.foldl (removalStep pf mode destFull desired rmFails) st).entries n =
      getEntry st.entries n := by
  induction l generalizing st with
  | nil => rfl
  | cons rec t ih =>
    rw [List.foldl_cons]
    rw [ih _ (fun r hr => h r (List.mem_cons_of_mem _ hr))]
    exact removalStep_entries_ne pf mode destFull desired rmFails st rec n
      (h rec (List.mem_cons_self _ _))

/-!
## Helper lemmas: the linking pass
-/

theorem createLinkToDirectory_absent (pf : Platform) (mode : Mode)
    (rmFails createFails : String → Bool) (es : List (String × FsEntry))
    (n td : String) (h : pathExists es n = false) :
    createLinkToDirectory pf mode rmFails createFails es n td =
      createLinkPrimitive pf mode createFails es n td := by
  unfold createLinkToDirectory
  rw [if_neg (by rw [h]; exact Bool.false_ne_true)]

theorem createLinkPrimitive_ok (pf : Platform) (mode : Mode)
    (createFails : String → Bool) (es : List (String × FsEntry)) (n td : String)
    (h : createFails n = false) :
    createLinkPrimitive pf mode createFails es n td =
      .ok (setEntry es n
        (if mode = Mode.copy then ⟨false, EntryContent.copyOf td⟩
         else ⟨true, EntryContent.linkTo td⟩)) := by
  cases mode <;> cases pf <;> simp [createLinkPrimitive, h]

theorem createLinkPrimitive_fail (pf : Platform) (mode : Mode)
    (createFails : String → Bool) (es : List (String × FsEntry)) (n td : String)
    (h : createFails n = true) :
    ∃ err, createLinkPrimitive pf mode createFails es n td = .error err := by
  cases mode <;> cases pf <;> simp [createLinkPrimitive, h]

theorem linkingTryCreate_of_absent_fail (pf : Platform) (mode : Mode)
    (destFull : String) (rmFails createFails : String → Bool) (st : RunSt)
    (d : LinkRecord) (h : pathExists st.entries d.pluginName = false)
    (hc : createFails d.pluginName = true) :
    linkingTryCreate pf mode destFull rmFails createFails st d =
      { st with
        warnings := st.warnings ++
          [Warning.failedCreate (joinPath pf destFull d.pluginName)] } := by
  unfold linkingTryCreate
  rw [createLinkToDirectory_absent pf mode rmFails createFails st.entries
    d.pluginName d.targetDir h]
  rcases createLinkPrimitive_fail pf mode createFails st.entries d.pluginName
    d.targetDir hc with ⟨err, he⟩
  rw [he]

theorem linkingTryCreate_of_absent_ok (pf : Platform) (mode : Mode)
    (destFull : String) (rmFails createFails : String → Bool) (st : RunSt)
    (d : LinkRecord) (h : pathExists st.entries d.pluginName = false)
    (hc : createFails d.pluginName = false) :
    linkingTryCreate pf mode destFull rmFails createFails st d =
      { st with
        entries := setEntry st.entries d.pluginName
          (if mode = Mode.copy then ⟨false, EntryContent.copyOf d.targetDir⟩
           else ⟨true, EntryContent.linkTo d.targetDir⟩)
        newManaged := mapSet st.newManaged d
        linked := st.linked ++ [d] } := by
  unfold linkingTryCreate
  rw [createLinkToDirectory_absent pf mode rmFails createFails st.entries
    d.pluginName d.targetDir h]
  rw [createLinkPrimitive_ok pf mode createFails st.entries d.pluginName
    d.targetDir hc]

theorem linkingStep_exists_skip (pf : Platform) (mode : Mode) (destFull : String)
    (managed : List LinkRecord) (rmFails createFails : String → Bool) (st : RunSt)
    (d : LinkRecord) (he : pathExists st.entries d.pluginName = true)
    (hm : mapHas managed d.pluginName = false) :
    linkingStep pf mode destFull managed rmFails createFails st d =
      .ok { st with
        warnings := st.warnings ++
          [Warning.skippingExistsNotManaged (joinPath pf destFull d.pluginName)] } := by
  unfold linkingStep
  rw [if_pos he, if_neg (by rw [hm]; exact Bool.false_ne_true)]

theorem linkingStep_replace_rmFail (pf : Platform) (mode : Mode) (destFull : String)
    (managed : List LinkRecord) (rmFails createFails : String → Bool) (st : RunSt)
    (d : LinkRecord) (he : pathExists st.entries d.pluginName = true)
    (hm : mapHas managed d.pluginName = true)
    (hr : rmFails d.pluginName = true) :
    linkingStep pf mode destFull managed rmFails createFails st d =
      .error LinkError.rmFailed := by
  unfold linkingStep removeLinkDir
  rw [if_pos he, if_pos hm, if_pos hr]

theorem linkingStep_replace_rmOk (pf : Platform) (mode : Mode) (destFull : String)
    (managed : List LinkRecord) (rmFails createFails : String → Bool) (st : RunSt)
    (d : LinkRecord) (he : pathExists st.entries d.pluginName = true)
    (hm : mapHas managed d.pluginName = true)
    (hr : rmFails d.pluginName = false) :
    linkingStep pf mode destFull managed rmFails createFails st d =
      .ok (linkingTryCreate pf mode destFull rmFails createFails
        { st with entries := eraseEntry st.entries d.pluginName } d) := by
  unfold linkingStep removeLinkDir
  rw [if_pos he, if_pos hm, if_neg (by rw [hr]; exact Bool.false_ne_true)]

theorem linkingStep_absent (pf : Platform) (mode : Mode) (destFull : String)
    (managed : List LinkRecord) (rmFails createFails : String → Bool) (st : RunSt)
    (d : LinkRecord) (he : pathExists st.entries d.pluginName = false) :
    linkingStep pf mode destFull managed rmFails createFails st d =
      .ok (linkingTryCreate pf mode destFull rmFails createFails st d) := by
  unfold linkingStep
  rw [if_neg (by rw [he]; exact Bool.false_ne_true)]

theorem except_bind_ok {ε α β : Type} (x : Except ε α) (g : α → Except ε β)
    (b : β) (h : x >>= g = .ok b) : ∃ a, x = .ok a ∧ g a = .ok b := by
  cases x with
  | error e => simp [Bind.bind, Except.bind] at h
  | ok a => exact ⟨a, rfl, by simpa [Bind.bind, Except.bind] using h⟩

theorem linkingStep_ok_cases (pf : Platform) (mode : Mode) (destFull : String)
    (managed : List LinkRecord) (rmFails createFails : String → Bool)
    (st st' : RunSt) (d : LinkRecord)
    (hok : linkingStep pf mode destFull managed rmFails createFails st d = .ok st') :
    st' = { st with
      warnings := st.warnings ++
        [Warning.skippingExistsNotManaged (joinPath pf destFull d.pluginName)] } ∨
    ∃ es₀, (es₀ = st.entries ∨ es₀ = eraseEntry st.entries d.pluginName) ∧
      (st' = { st with
          entries := es₀
          warnings := st.warnings ++
            [Warning.failedCreate (joinPath pf destFull d.pluginName)] } ∨
       ∃ e, st' = { st with
          entries := setEntry es₀ d.pluginName e
          newManaged := mapSet st.newManaged d
          linked := st.linked ++ [d] }) := by
  by_cases he : pathExists st.entries d.pluginName = true
  · by_cases hm : mapHas managed d.pluginName = true
    · by_cases hr : rmFails d.pluginName = true
      · rw [linkingStep_replace_rmFail pf mode destFull managed rmFails createFails
          st d he hm hr] at hok
        exact absurd hok (by simp)
      · rw [linkingStep_replace_rmOk pf mode destFull managed rmFails createFails
          st d he hm (by simpa using hr)] at hok
        have hst : st' = linkingTryCreate pf mode destFull rmFails createFails
            { st with entries := eraseEntry st.entries d.pluginName } d := by
          injection hok with h1
          exact h1.symm
        have habs : pathExists
            ({ st with entries := eraseEntry st.entries d.pluginName } : RunSt).entries
            d.pluginName = false := by
          show pathExists (eraseEntry st.entries d.pluginName) d.pluginName = false
          unfold pathExists
          rw [getEntry_eraseEntry_self]
          rfl
        by_cases hc : createFails d.pluginName = true
        · rw [linkingTryCreate_of_absent_fail pf mode destFull rmFails createFails
            _ d habs hc] at hst
          exact Or.inr ⟨eraseEntry st.entries d.pluginName, Or.inr rfl, Or.inl hst⟩
        · rw [linkingTryCreate_of_absent_ok pf mode destFull rmFails createFails
            _ d habs (by simpa using hc)] at hst
          exact Or.inr ⟨eraseEntry st.entries d.pluginName, Or.inr rfl,
            Or.inr ⟨_, hst⟩⟩
    · rw [linkingStep_exists_skip pf mode destFull managed rmFails createFails
        st d he (by simpa using hm)] at hok
      injection hok with h1
      exact Or.inl h1.symm
  · have he' : pathExists st.entries d.pluginName = false := by simpa using he
    rw [linkingStep_absent pf mode destFull managed rmFails createFails st d he']
      at hok
    have hst : st' = linkingTryCreate pf mode destFull rmFails createFails st d := by
      injection hok with h1
      exact h1.symm
    by_cases hc : createFails d.pluginName = true
    · rw [linkingTryCreate_of_absent_fail pf mode destFull rmFails createFails
        st d he' hc] at hst
      exact Or.inr ⟨st.entries, Or.inl rfl, Or.inl hst⟩
    · rw [linkingTryCreate_of_absent_ok pf mode destFull rmFails createFails
        st d he' (by simpa using hc)] at hst
      exact Or.inr ⟨st.entries, Or.inl rfl, Or.inr ⟨_, hst⟩⟩

theorem linkingStep_removed_eq (pf : Platform) (mode : Mode) (destFull : String)
    (managed : List LinkRecord) (rmFails createFails : String → Bool)
    (st st' : RunSt) (d : LinkRecord)
    (hok : linkingStep pf mode destFull managed rmFails createFails st d = .ok st') :
    st'.removed = st.removed := by
  rcases linkingStep_ok_cases pf mode destFull managed rmFails createFails st st' d
    hok with h | ⟨es₀, _, h | ⟨e, h⟩⟩ <;> rw [h]

theorem linkingStep_warnings_mono (pf : Platform) (mode : Mode) (destFull : String)
    (managed : List LinkRecord) (rmFails createFails : String → Bool)
    (st st' : RunSt) (d : LinkRecord) (w : Warning)
    (hok : linkingStep pf mode destFull managed rmFails createFails st d = .ok st')
    (h : w ∈ st.warnings) : w ∈ st'.warnings := by
  rcases linkingStep_ok_cases pf mode destFull managed rmFails createFails st st' d
    hok with hc | ⟨es₀, _, hc | ⟨e, hc⟩⟩ <;> rw [hc] <;>
    first
      | exact h
      | exact List.mem_append_left _ h

theorem linkingStep_linked_mono (pf : Platform) (mode : Mode) (destFull : String)
    (managed : List LinkRecord) (rmFails createFails : String → Bool)
    (st st' : RunSt) (d : LinkRecord) (r : LinkRecord)
    (hok : linkingStep pf mode destFull managed rmFails createFails st d = .ok st')
    (h : r ∈ st.linked) : r ∈ st'.linked := by
  rcases linkingStep_ok_cases pf mode destFull managed rmFails createFails st st' d
    hok with hc | ⟨es₀, _, hc | ⟨e, hc⟩⟩ <;> rw [hc] <;>
    first
      | exact h
      | exact List.mem_append_left _ h

theorem linkingStep_linked_sub (pf : Platform) (mode : Mode) (destFull : String)
    (managed : List LinkRecord) (rmFails createFails : String → Bool)
    (st st' : RunSt) (d : LinkRecord) (r : LinkRecord)
    (hok : linkingStep pf mode destFull managed rmFails createFails st d = .ok st')
    (h : r ∈ st'.linked) : r ∈ st.linked ∨ r = d := by
  rcases linkingStep_ok_cases pf mode destFull managed rmFails createFails st st' d
    hok with hc | ⟨es₀, _, hc | ⟨e, hc⟩⟩ <;> rw [hc] at h <;>
    first
      | exact Or.inl h
      | (rcases List.mem_append.mp h with h1 | h1
         · exact Or.inl h1
         · exact Or.inr (List.mem_singleton.mp h1))

theorem linkingStep_entries_ne (pf : Platform) (mode : Mode) (destFull : String)
    (managed : List LinkRecord) (rmFails createFails : String → Bool)
    (st st' : RunSt) (d : LinkRecord) (n : String)
    (hok : linkingStep pf mode destFull managed rmFails createFails st d = .ok st')
    (hne : d.pluginName ≠ n) : getEntry st'.entries n = getEntry st.entries n := by
  rcases linkingStep_ok_cases pf mode destFull managed rmFails createFails st st' d
    hok with hc | ⟨es₀, hes, hc | ⟨e, hc⟩⟩ <;> rw [hc]
  · rcases hes with h0 | h0 <;> rw [h0]
    exact getEntry_eraseEntry_ne st.entries d.pluginName n (Ne.symm hne)
  · rw [getEntry_setEntry_ne es₀ d.pluginName n e (Ne.symm hne)]
    rcases hes with h0 | h0 <;> rw [h0]
    exact getEntry_eraseEntry_ne st.entries d.pluginName n (Ne.symm hne)

theorem linkingStep_newManaged_ne (pf : Platform) (mode : Mode) (destFull : String)
    (managed : List LinkRecord) (rmFails createFails : String → Bool)
    (st st' : RunSt) (d : LinkRecord) (n : String)
    (hok : linkingStep pf mode destFull managed rmFails createFails st d = .ok st')
    (hne : n ≠ d.pluginName) :
    mapGet st'.newManaged n = mapGet st.newManaged n := by
  rcases linkingStep_ok_cases pf mode destFull managed rmFails createFails st st' d
    hok with hc | ⟨es₀, _, hc | ⟨e, hc⟩⟩ <;> rw [hc]
  exact mapGet_mapSet_ne st.newManaged d n hne

theorem linkingStep_linked_newManaged (pf : Platform) (mode : Mode)
    (destFull : String) (managed : List LinkRecord)
    (rmFails createFails : String → Bool) (st st' : RunSt) (d : LinkRecord)
    (hok : linkingStep pf mode destFull managed rmFails createFails st d = .ok st') :
    (st'.linked = st.linked ∧ st'.newManaged = st.newManaged) ∨
    (st'.linked = st.linked ++ [d] ∧ st'.newManaged = mapSet st.newManaged d) := by
  rcases linkingStep_ok_cases pf mode destFull managed rmFails createFails st st' d
    hok with hc | ⟨es₀, _, hc | ⟨e, hc⟩⟩ <;> rw [hc]
  · exact Or.inl ⟨rfl, rfl⟩
  · exact Or.inl ⟨rfl, rfl⟩
  · exact Or.inr ⟨rfl, rfl⟩

theorem linkingFold_ok_cons (pf : Platform) (mode : Mode) (destFull : String)
    (managed : List LinkRecord) (rmFails createFails : String → Bool)
    (st st'' : RunSt) (d : LinkRecord) (t : List LinkRecord)
    (h : (d :: t).foldlM (linkingStep pf mode destFull managed rmFails createFails)
      st = .ok st'') :
    ∃ st', linkingStep pf mode destFull managed rmFails createFails st d = .ok st' ∧
      t.foldlM (linkingStep pf mode destFull managed rmFails createFails) st' =
        .ok st'' := by
  rw [List.foldlM_cons] at h
  exact except_bind_ok _ _ _ h

theorem linkingFold_removed_eq (pf : Platform) (mode : Mode) (destFull : String)
    (managed : List LinkRecord) (rmFails createFails : String → Bool)
    (l : List LinkRecord) (st st'' : RunSt)
    (h : l.foldlM (linkingStep pf mode destFull managed rmFails createFails) st =
      .ok st'') : st''.removed = st.removed := by
  induction l generalizing st with
  | nil =>
    rw [List.foldlM_nil] at h
    injection h with h1
    rw [← h1]
  | cons d t ih =>
    rcases linkingFold_ok_cons pf mode destFull managed rmFails createFails st st''
      d t h with ⟨st', h1, h2⟩
    rw [ih _ h2]
    exact linkingStep_removed_eq pf mode destFull managed rmFails createFails
      st st' d h1

theorem linkingFold_warnings_mono (pf : Platform) (mode : Mode) (destFull : String)
    (managed : List LinkRecord) (rmFails createFails : String → Bool)
    (l : List LinkRecord) (st st'' : RunSt) (w : Warning)
    (h : l.foldlM (linkingStep pf mode destFull managed rmFails createFails) st =
      .ok st'') (hw : w ∈ st.warnings) : w ∈ st''.warnings := by
  induction l generalizing st with
  | nil =>
    rw [List.foldlM_nil] at h
    injection h with h1
    rw [← h1]
    exact hw
  | cons d t ih =>
    rcases linkingFold_ok_cons pf mode destFull managed rmFails createFails st st''
      d t h with ⟨st', h1, h2⟩
    exact ih _ h2
      (linkingStep_warnings_mono pf mode destFull managed rmFails createFails
        st st' d w h1 hw)

theorem linkingFold_entries_ne (pf : Platform) (mode : Mode) (destFull : String)
    (managed : List LinkRecord) (rmFails createFails : String → Bool)
    (l : List LinkRecord) (st st'' : RunSt) (n : String)
    (h : l.foldlM (linkingStep pf mode destFull managed rmFails createFails) st =
      .ok st'') (hn : ∀ d ∈ l, d.pluginName ≠ n) :
    getEntry st''.entries n = getEntry st.entries n := by
  induction l generalizing st with
  | nil =>
    rw [List.foldlM_nil] at h
    injection h with h1
    rw [← h1]
  | cons d t ih =>
    rcases linkingFold_ok_cons pf mode destFull managed rmFails createFails st st''
      d t h with ⟨st', h1, h2⟩
    rw [ih _ h2 (fun x hx => hn x (List.mem_cons_of_mem _ hx))]
    exact linkingStep_entries_ne pf mode destFull managed rmFails createFails
      st st' d n h1 (hn d (List.mem_cons_self _ _))

theorem linkingFold_newManaged_ne (pf : Platform) (mode : Mode) (destFull : String)
    (managed : List LinkRecord) (rmFails createFails : String → Bool)
    (l : List LinkRecord) (st st'' : RunSt) (n : String)
    (h : l.foldlM (linkingStep pf mode destFull managed rmFails createFails) st =
      .ok st'') (hn : ∀ d ∈ l, d.pluginName ≠ n) :
    mapGet st''.newManaged n = mapGet st.newManaged n := by
  induction l generalizing st with
  | nil =>
    rw [List.foldlM_nil] at h
    injection h with h1
    rw [← h1]
  | cons d t ih =>
    rcases linkingFold_ok_cons pf mode destFull managed rmFails createFails st st''
      d t h with ⟨st', h1, h2⟩
    rw [ih _ h2 (fun x hx => hn x (List.mem_cons_of_mem _ hx))]
    exact linkingStep_newManaged_ne pf mode destFull managed rmFails createFails
      st st' d n h1 (fun hx => hn d (List.mem_cons_self _ _) hx.symm)

theorem linkingFold_linked_sub (pf : Platform) (mode : Mode) (destFull : String)
    (managed : List LinkRecord) (rmFails createFails : String → Bool)
    (l : List LinkRecord) (st st'' : RunSt) (r : LinkRecord)
    (h : l.foldlM (linkingStep pf mode destFull managed rmFails createFails) st =
      .ok st'') (hr : r ∈ st''.linked) : r ∈ st.linked ∨ r ∈ l := by
  induction l generalizing st with
  | nil =>
    rw [List.foldlM_nil] at h
    injection h with h1
    rw [← h1] at hr
    exact Or.inl hr
  | cons d t ih =>
    rcases linkingFold_ok_cons pf mode destFull managed rmFails createFails st st''
      d t h with ⟨st', h1, h2⟩
    rcases ih _ h2 with h3 | h3
    · rcases linkingStep_linked_sub pf mode destFull managed rmFails createFails
        st st' d r h1 h3 with h4 | h4
      · exact Or.inl h4
      · exact Or.inr (by rw [h4]; exact List.mem_cons_self _ _)
    · exact Or.inr (List.mem_cons_of_mem _ h3)

theorem linkingFold_ok_append (pf : Platform) (mode : Mode) (destFull : String)
    (managed : List LinkRecord) (rmFails createFails : String → Bool)
    (l₁ l₂ : List LinkRecord) (st st'' : RunSt)
    (h : (l₁ ++ l₂).foldlM (linkingStep pf mode destFull managed rmFails createFails)
      st = .ok st'') :
    ∃ stm, l₁.foldlM (linkingStep pf mode destFull managed rmFails createFails) st =
        .ok stm ∧
      l₂.foldlM (linkingStep pf mode destFull managed rmFails createFails) stm =
        .ok st'' := by
  induction l₁ generalizing st with
  | nil =>
    rw [List.nil_append] at h
    exact ⟨st, by rw [List.foldlM_nil]; rfl, h⟩
  | cons d t ih =>
    rw [List.cons_append] at h
    rcases linkingFold_ok_cons pf mode destFull managed rmFails createFails st st''
      d (t ++ l₂) h with ⟨st', h1, h2⟩
    rcases ih _ h2 with ⟨stm, h3, h4⟩
    refine ⟨stm, ?_, h4⟩
    rw [List.foldlM_cons, h1]
    exact h3

theorem linkingFold_linked_in_newManaged (pf : Platform) (mode : Mode)
    (destFull : String) (managed : List LinkRecord)
    (rmFails createFails : String → Bool) (l : List LinkRecord) (st st'' : RunSt)
    (hnd : (l.map (fun d => d.pluginName)).Nodup)
    (hinit1 : ∀ r ∈ st.linked, mapGet st.newManaged r.pluginName = some r)
    (hinit2 : ∀ r ∈ st.linked, r.pluginName ∉ l.map (fun d => d.pluginName))
    (h : l.foldlM (linkingStep pf mode destFull managed rmFails createFails) st =
      .ok st'') :
    ∀ r ∈ st''.linked, mapGet st''.newManaged r.pluginName = some r := by
  induction l generalizing st with
  | nil =>
    rw [List.foldlM_nil] at h
    injection h with h1
    rw [← h1]
    exact hinit1
  | cons d t ih =>
    rcases linkingFold_ok_cons pf mode destFull managed rmFails createFails st st''
      d t h with ⟨st', h1, h2⟩
    rw [List.map_cons, List.nodup_cons] at hnd
    rcases linkingStep_linked_newManaged pf mode destFull managed rmFails
      createFails st st' d h1 with ⟨hl, hm⟩ | ⟨hl, hm⟩
    · apply ih _ hnd.2 _ _ h2
      · intro r hr
        rw [hl] at hr
        rw [hm]
        exact hinit1 r hr
      · intro r hr
        rw [hl] at hr
        have h3 := hinit2 r hr
        rw [List.map_cons] at h3
        exact fun hc => h3 (List.mem_cons_of_mem _ hc)
    · apply ih _ hnd.2 _ _ h2
      · intro r hr
        rw [hl] at hr
        rcases List.mem_append.mp hr with h3 | h3
        · have h4 := hinit2 r h3
          rw [List.map_cons] at h4
          have h5 : r.pluginName ≠ d.pluginName := fun hc => h4 (by
            rw [hc]
            exact List.mem_cons_self _ _)
          rw [hm, mapGet_mapSet_ne st.newManaged d r.pluginName h5]
          exact hinit1 r h3
        · rw [List.mem_singleton.mp h3, hm]
          exact mapGet_mapSet_self st.newManaged d
      · intro r hr
        rw [hl] at hr
        rcases List.mem_append.mp hr with h3 | h3
        · have h4 := hinit2 r h3
          rw [List.map_cons] at h4
          exact fun hc => h4 (List.mem_cons_of_mem _ hc)
        · rw [List.mem_singleton.mp h3]
          exact hnd.1

theorem nodup_names_split (s t : List LinkRecord) (r : LinkRecord)
    (hnd : (((s ++ r :: t).map (fun x => x.pluginName))).Nodup) :
    (∀ x ∈ s, x.pluginName ≠ r.pluginName) ∧
      (∀ x ∈ t, x.pluginName ≠ r.pluginName) := by
  rw [List.map_append, List.map_cons, List.nodup_append] at hnd
  rcases hnd with ⟨_, hnd2, hdisj⟩
  constructor
  · intro x hx hc
    have h1 : x.pluginName ∈ s.map (fun x => x.pluginName) :=
      List.mem_map_of_mem _ hx
    have h2 : x.pluginName ∈ r.pluginName :: t.map (fun x => x.pluginName) := by
      rw [hc]
      exact List.mem_cons_self _ _
    exact hdisj h1 h2
  · intro x hx hc
    rw [List.nodup_cons] at hnd2
    apply hnd2.1
    rw [← hc]
    exact List.mem_map_of_mem _ hx

/-!
## Helper lemmas: `syncUePluginLinks` as a whole
-/

theorem sync_ok_main (pf : Platform) (mode : Mode) (discovered : List LinkRecord)
    (destFull : String) (st : DestState) (rmFails createFails : String → Bool)
    (res : LinkSyncResult) (st' : DestState)
    (h : syncUePluginLinks pf mode discovered destFull st rmFails createFails =
      .ok (res, st'))
    (hg : (discovered.isEmpty && !st.manifest.isSome) = false) :
    ∃ run2,
      (buildDesired discovered).1.foldlM
        (linkingStep pf mode destFull (loadManifest st.manifest) rmFails createFails)
        ((loadManifest st.manifest).foldl
          (removalStep pf mode destFull (buildDesired discovered).1 rmFails)
          { entries := st.entries, warnings := (buildDesired discovered).2
            removed := [], linked := [], newManaged := loadManifest st.manifest }) =
        .ok run2 ∧
      res = { ok := true, linked := run2.linked, removed := run2.removed
              warnings := run2.warnings } ∧
      st' = { entries := run2.entries, manifest := some run2.newManaged
              destDirCreated := true } := by
  unfold syncUePluginLinks at h
  rw [if_neg (by rw [hg]; exact Bool.false_ne_true)] at h
  dsimp only at h
  cases hf : (buildDesired discovered).1.foldlM
      (linkingStep pf mode destFull (loadManifest st.manifest) rmFails createFails)
      ((loadManifest st.manifest).foldl
        (removalStep pf mode destFull (buildDesired discovered).1 rmFails)
        { entries := st.entries, warnings := (buildDesired discovered).2
          removed := [], linked := [], newManaged := loadManifest st.manifest }) with
  | error e =>
    rw [hf] at h
    simp [Except.map] at h
  | ok run2 =>
    rw [hf] at h
    simp only [Except.map] at h
    injection h with h1
    rw [Prod.ext_iff] at h1
    exact ⟨run2, rfl, h1.1.symm, h1.2.symm⟩

theorem sync_ok_result_ok (pf : Platform) (mode : Mode)
    (discovered : List LinkRecord) (destFull : String) (st : DestState)
    (rmFails createFails : String → Bool) (res : LinkSyncResult) (st' : DestState)
    (h : syncUePluginLinks pf mode discovered destFull st rmFails createFails =
      .ok (res, st')) : res.ok = true := by
  by_cases hg : (discovered.isEmpty && !st.manifest.isSome) = true
  · unfold syncUePluginLinks at h
    rw [if_pos hg] at h
    injection h with h1
    rw [Prod.ext_iff] at h1
    have h2 := h1.1
    dsimp only at h2
    rw [← h2]
  · have hg' : (discovered.isEmpty && !st.manifest.isSome) = false := by
      cases hb : (discovered.isEmpty && !st.manifest.isSome)
      · rfl
      · exact absurd hb hg
    rcases sync_ok_main pf mode discovered destFull st rmFails createFails res st' h
      hg' with ⟨run2, _, hres, _⟩
    rw [hres]

/-!
## Claim theorems
-/

/-- C8: if discovery yields an empty set and no manifest file exists at the
destination, `sync` returns `ok = true` with empty `linked`, `removed` and
`warnings`, and performs no filesystem mutation: the destination state
(entries, manifest file, destination-directory creation flag) is returned
exactly as it was. -/
theorem sync_empty_discovery_no_manifest_is_noop (pf : Platform) (mode : Mode)
    (destFull : String) (st : DestState) (rmFails createFails : String → Bool)
    (hm : st.manifest = none) :
    syncUePluginLinks pf mode [] destFull st rmFails createFails =
      .ok ({ ok := true, linked := [], removed := [], warnings := [] }, st) := by
  unfold syncUePluginLinks
  rw [if_pos (by rw [hm]; rfl)]

/-- Witness for C8 at a concrete destination state. -/
theorem sync_empty_discovery_no_manifest_is_noop_witness :
    syncUePluginLinks .posix .auto [] "/dest"
      { entries := [], manifest := none, destDirCreated := false }
      (fun _ => false) (fun _ => false) =
      .ok ({ ok := true, linked := [], removed := [], warnings := [] },
        { entries := [], manifest := none, destDirCreated := false }) :=
  sync_empty_discovery_no_manifest_is_noop .posix .auto "/dest"
    { entries := [], manifest := none, destDirCreated := false }
    (fun _ => false) (fun _ => false) rfl

/-- C9: the copy-mode filter is evaluated against the destination-relative
path: for any destination path `linkPath ++ rel` it accepts exactly when no
component of `rel` is `node_modules` or `.git` (the root, `rel = []`, is
always accepted), independently of the source path; it agrees with the
specification predicate; and the `fs.cp` call dereferences source symlinks. -/
theorem copy_filter_destination_relative (linkPath srcPath rel : List String) :
    (cpFilter linkPath srcPath (linkPath ++ rel) = true ↔
      ("node_modules" ∉ rel ∧ ".git" ∉ rel)) ∧
    cpFilter linkPath srcPath (linkPath ++ rel) = shouldCopySpecModel rel ∧
    copyCpOptions.dereference = true ∧ copyCpOptions.recursive = true ∧
    copyCpOptions.force = true := by
  have hrel : pathRelative linkPath (linkPath ++ rel) = rel := by
    unfold pathRelative
    exact List.drop_left linkPath rel
  refine ⟨?_, ?_, rfl, rfl, rfl⟩
  · unfold cpFilter shouldCopy
    rw [hrel]
    by_cases h : rel.isEmpty
    · rw [if_pos h]
      have : rel = [] := List.isEmpty_iff.mp h
      subst this
      simp
    · rw [if_neg h]
      simp
  · unfold cpFilter shouldCopy shouldCopySpecModel
    rw [hrel]
    by_cases h : rel.isEmpty
    · rw [if_pos h]
      simp [h]
    · rw [if_neg h]
      have : rel.isEmpty = false := by simpa using h
      simp [this]

/-- C2 (failing input): with a loaded manifest containing `OldPlugin`, no
discovered plugins, and no entry on disk, `sync` reports `OldPlugin` in
`removed`, yet the manifest it persists still contains the `OldPlugin`
record: the removal pass never deletes entries from the map that is saved
(`newManaged` is copied from `managed` after the removal pass and only ever
receives `set`s). -/
theorem sync_removed_entry_still_persisted :
    syncUePluginLinks .posix .auto [] "/dest"
      { entries := []
        manifest := some [⟨"OldPlugin", "old-pkg", "/src/old"⟩]
        destDirCreated := false }
      (fun _ => false) (fun _ => false) =
      .ok ({ ok := true, linked := []
             removed := [⟨"OldPlugin", "old-pkg", "/src/old"⟩]
             warnings := [] },
           { entries := []
             manifest := some [⟨"OldPlugin", "old-pkg", "/src/old"⟩]
             destDirCreated := true }) := by
  rfl

/-- C3 (failing input): starting from a manifest containing a stale
`OldPlugin` entry, the first `sync` run reports it removed, and a second
run with identical arguments and no intervening filesystem change reports
it removed again: `removed` is not empty on the second run, because the
first run persisted a manifest that still contains the entry. -/
theorem sync_second_run_removed_not_empty :
    syncUePluginLinks .posix .auto [] "/dest"
      { entries := []
        manifest := some [⟨"OldPlugin", "old-pkg", "/src/old"⟩]
        destDirCreated := false }
      (fun _ => false) (fun _ => false) =
      .ok ({ ok := true, linked := []
             removed := [⟨"OldPlugin", "old-pkg", "/src/old"⟩]
             warnings := [] },
           { entries := []
             manifest := some [⟨"OldPlugin", "old-pkg", "/src/old"⟩]
             destDirCreated := true }) ∧
    syncUePluginLinks .posix .auto [] "/dest"
      { entries := []
        manifest := some [⟨"OldPlugin", "old-pkg", "/src/old"⟩]
        destDirCreated := true }
      (fun _ => false) (fun _ => false) =
      .ok ({ ok := true, linked := []
             removed := [⟨"OldPlugin", "old-pkg", "/src/old"⟩]
             warnings := [] },
           { entries := []
             manifest := some [⟨"OldPlugin", "old-pkg", "/src/old"⟩]
             destDirCreated := true }) ∧
    ({ ok := true, linked := []
       removed := [⟨"OldPlugin", "old-pkg", "/src/old"⟩]
       warnings := [] } : LinkSyncResult).removed ≠ [] := by
  refine ⟨rfl, rfl, by simp⟩

/-- C4 (counterexample): on the `win32` platform, in `auto` mode, a managed
entry whose path exists but is not a link and is no longer desired is
deleted from disk, recorded in `removed`, and no warning is emitted — the
warn-and-keep branch requires `process.platform !== 'win32'` in addition to
the mode condition the claim states. -/
theorem removal_foreign_on_win32_deleted_without_warning :
    syncUePluginLinks .win32 .auto [] "/dest"
      { entries := [("OldPlugin", ⟨false, .foreign 0⟩)]
        manifest := some [⟨"OldPlugin", "old-pkg", "/src/old"⟩]
        destDirCreated := false }
      (fun _ => false) (fun _ => false) =
      .ok ({ ok := true, linked := []
             removed := [⟨"OldPlugin", "old-pkg", "/src/old"⟩]
             warnings := [] },
           { entries := []
             manifest := some [⟨"OldPlugin", "old-pkg", "/src/old"⟩]
             destDirCreated := true }) := by
  rfl

/-- C5 (counterexample): when a desired plugin is already managed and its
path exists, the linking pass removes the old link *before* the
`try`-block; a failure of that removal propagates out of `sync` as an
exception instead of being caught and recorded as a warning. -/
theorem linking_replace_removal_failure_propagates :
    syncUePluginLinks .posix .auto [⟨"X", "pkg", "/nm/pkg"⟩] "/dest"
      { entries := [("X", ⟨true, .linkTo "/old"⟩)]
        manifest := some [⟨"X", "pkg", "/old"⟩]
        destDirCreated := true }
      (fun _ => true) (fun _ => false) =
      .error .rmFailed := by
  rfl

/-- C6 (counterexample): for a package whose root contains `Foo.uplugin` and
whose `Plugins` folder contains `Bar.uplugin`, the package-root strategy
alone already yields a result, yet the final discovery result also contains
the record contributed by the `Plugins`-folder strategy: the first two
strategies are always both run and merged; only the recursive fallback is
gated on earlier results. -/
theorem discovery_root_and_conventional_both_contribute :
    (addFromDir "pkg-a" "pkg" [.file "Foo.uplugin", .dir "Plugins" [.file "Bar.uplugin"]]
      ⟨[], []⟩).found = [⟨"Foo", "pkg-a", "pkg"⟩] ∧
    findPluginsInPackageDir "pkg-a" "pkg"
      [.file "Foo.uplugin", .dir "Plugins" [.file "Bar.uplugin"]] =
      [⟨"Foo", "pkg-a", "pkg"⟩, ⟨"Bar", "pkg-a", "pkg/Plugins"⟩] := by
  exact ⟨rfl, rfl⟩

theorem foldl_preserves {α β : Type} (P : β → Prop) (f : β → α → β) (l : List α)
    (b : β) (hb : P b) (hstep : ∀ b a, P b → P (f b a)) : P (l.foldl f b) := by
  induction l generalizing b with
  | nil => exact hb
  | cons a t ih => exact ih _ (hstep b a hb)

theorem addFromDir_inv (packageName dirPath : String) (entries : List FsTree)
    (st : ScanSt) (h : ScanInv st) :
    ScanInv (addFromDir packageName dirPath entries st) := by
  unfold addFromDir
  apply foldl_preserves ScanInv _ entries st h
  intro st ent hP
  cases ent with
  | dir _ _ => exact hP
  | file name =>
    dsimp only
    cases hpn : pluginNameFromUpluginFilename name with
    | none => exact hP
    | some pn =>
      dsimp only
      by_cases hg : pn = "" ∨ st.byName.contains pn = true
      · rw [if_pos hg]
        exact hP
      · rw [if_neg hg]
        rcases hP with ⟨h1, h2⟩
        constructor
        · simp [h1]
        · rw [List.nodup_append]
          refine ⟨h2, List.nodup_singleton _, ?_⟩
          intro a ha hb
          rw [List.mem_singleton] at hb
          apply hg
          right
          show st.byName.elem pn = true
          exact List.elem_iff.mpr (hb ▸ ha)

theorem fallbackLoop_inv (packageName : String) (fuel : Nat)
    (stack : List ScanFrame) (st : ScanSt) (h : ScanInv st) :
    ScanInv (fallbackLoop packageName fuel stack st) := by
  induction fuel generalizing stack st with
  | zero => exact h
  | succ fuel ih =>
    cases stack with
    | nil => exact h
    | cons fr rest =>
      show ScanInv (fallbackLoop packageName (fuel + 1) (fr :: rest) st)
      unfold fallbackLoop
      dsimp only
      by_cases hd : fr.depth > maxDepth
      · rw [if_pos hd]
        exact ih rest st h
      · rw [if_neg hd]
        exact ih _ _ (addFromDir_inv packageName fr.dirPath fr.entries st h)

theorem scanRootAndConventional_inv (packageName pkgPath : String)
    (children : List FsTree) :
    ScanInv (scanRootAndConventional packageName pkgPath children) := by
  unfold scanRootAndConventional
  have h0 : ScanInv ⟨[], []⟩ := ⟨rfl, List.nodup_nil⟩
  have h1 := addFromDir_inv packageName pkgPath children ⟨[], []⟩ h0
  cases hf : findDirChildren children "Plugins" with
  | none => exact h1
  | some pcs =>
    apply foldl_preserves ScanInv _ pcs _
      (addFromDir_inv packageName (pkgPath ++ "/Plugins") pcs _ h1)
    intro st ent hP
    cases ent with
    | file _ => exact hP
    | dir n cs =>
      dsimp only
      by_cases hn : strStartsWith n "." = true
      · rw [if_pos hn]
        exact hP
      · rw [if_neg hn]
        exact addFromDir_inv packageName (pkgPath ++ "/Plugins/" ++ n) cs st hP

/-- C6 (amended): the first two strategies (package root; `Plugins` folder
plus one level of its sub-directories) always both run and their results
are merged with first-seen-wins deduplication by plugin name; only the
bounded recursive fallback is gated: it runs exactly when the first two
strategies found nothing.  The returned records carry pairwise distinct
plugin names. -/
theorem discovery_strategy_gating (packageName pkgPath : String)
    (children : List FsTree) :
    ((scanRootAndConventional packageName pkgPath children).found ≠ [] →
      findPluginsInPackageDir packageName pkgPath children =
        (scanRootAndConventional packageName pkgPath children).found) ∧
    ((scanRootAndConventional packageName pkgPath children).found = [] →
      findPluginsInPackageDir packageName pkgPath children =
        (fallbackScan packageName pkgPath children
          (scanRootAndConventional packageName pkgPath children)).found) ∧
    ((findPluginsInPackageDir packageName pkgPath children).map
      (fun r => r.pluginName)).Nodup := by
  have hnd : ScanInv (scanRootAndConventional packageName pkgPath children) :=
    scanRootAndConventional_inv packageName pkgPath children
  refine ⟨?_, ?_, ?_⟩
  · intro h
    unfold findPluginsInPackageDir
    rw [if_pos (fun hc => h (List.length_eq_zero.mp hc))]
  · intro h
    unfold findPluginsInPackageDir
    rw [if_neg (fun hc => hc (by rw [h]; rfl))]
  · unfold findPluginsInPackageDir
    by_cases h : (scanRootAndConventional packageName pkgPath children).found.length ≠ 0
    · rw [if_pos h]
      rcases hnd with ⟨h1, h2⟩
      rw [← h1]
      exact h2
    · rw [if_neg h]
      have hinv := fallbackLoop_inv packageName
        (sizeTrees children + 1) [⟨pkgPath, children, 0⟩]
        (scanRootAndConventional packageName pkgPath children) hnd
      rcases hinv with ⟨h1, h2⟩
      unfold fallbackScan
      rw [← h1]
      exact h2

/-- Witness for the amended C6 at the counterexample tree: the first two
strategies found something, so the result is exactly their merge. -/
theorem discovery_strategy_gating_witness :
    (scanRootAndConventional "pkg-a" "pkg"
      [.file "Foo.uplugin", .dir "Plugins" [.file "Bar.uplugin"]]).found ≠ [] ∧
    findPluginsInPackageDir "pkg-a" "pkg"
      [.file "Foo.uplugin", .dir "Plugins" [.file "Bar.uplugin"]] =
      (scanRootAndConventional "pkg-a" "pkg"
        [.file "Foo.uplugin", .dir "Plugins" [.file "Bar.uplugin"]]).found :=
  ⟨by decide, (discovery_strategy_gating "pkg-a" "pkg"
      [.file "Foo.uplugin", .dir "Plugins" [.file "Bar.uplugin"]]).1 (by decide)⟩

/-- C10: every record reported in `linked` is present in the manifest
persisted at the end of the same run: its plugin name maps to exactly that
record in the saved map. -/
theorem linked_records_in_persisted_manifest (pf : Platform) (mode : Mode)
    (discovered : List LinkRecord) (destFull : String) (st : DestState)
    (rmFails createFails : String → Bool) (res : LinkSyncResult) (st' : DestState)
    (hrun : syncUePluginLinks pf mode discovered destFull st rmFails createFails =
      .ok (res, st')) :
    ∀ r ∈ res.linked, ∃ M, st'.manifest = some M ∧ mapGet M r.pluginName = some r := by
  by_cases hg : (discovered.isEmpty && !st.manifest.isSome) = true
  · unfold syncUePluginLinks at hrun
    rw [if_pos hg] at hrun
    injection hrun with h1
    rw [Prod.ext_iff] at h1
    have h2 := h1.1
    dsimp only at h2
    intro r hr
    rw [← h2] at hr
    simp at hr
  · rcases sync_ok_main pf mode discovered destFull st rmFails createFails res st'
      hrun (Bool.eq_false_iff.mpr hg) with ⟨run2, hfold, hres, hst⟩
    intro r hr
    refine ⟨run2.newManaged, by rw [hst], ?_⟩
    have hrl : r ∈ run2.linked := by rw [hres] at hr; exact hr
    apply linkingFold_linked_in_newManaged pf mode destFull
      (loadManifest st.manifest) rmFails createFails (buildDesired discovered).1 _
      run2 (buildDesired_names_nodup discovered) ?_ ?_ hfold r hrl
    · intro x hx
      rw [removalFold_linked] at hx
      simp at hx
    · intro x hx
      rw [removalFold_linked] at hx
      simp at hx

/-- Witness for C10: a run that links one plugin; the persisted manifest
maps that plugin name to the linked record. -/
theorem linked_records_in_persisted_manifest_witness :
    ∃ M, (⟨[("Foo", ⟨true, .linkTo "/nm/pkg-a"⟩)],
        some [⟨"Foo", "pkg-a", "/nm/pkg-a"⟩], true⟩ : DestState).manifest = some M ∧
      mapGet M "Foo" = some ⟨"Foo", "pkg-a", "/nm/pkg-a"⟩ := by
  have h := linked_records_in_persisted_manifest .posix .auto
    [⟨"Foo", "pkg-a", "/nm/pkg-a"⟩] "/dest"
    { entries := [], manifest := some [], destDirCreated := false }
    (fun _ => false) (fun _ => false)
    { ok := true, linked := [⟨"Foo", "pkg-a", "/nm/pkg-a"⟩], removed := []
      warnings := [] }
    { entries := [("Foo", ⟨true, .linkTo "/nm/pkg-a"⟩)]
      manifest := some [⟨"Foo", "pkg-a", "/nm/pkg-a"⟩], destDirCreated := true }
    rfl
  exact h ⟨"Foo", "pkg-a", "/nm/pkg-a"⟩ (by simp)

/-- C7: when two or more discovered records share a plugin name, the Desired
Set contains exactly one record for that name — the first in discovery
order — a warning naming the plugin is in the result, and the run still
completes with `ok = true`. -/
theorem duplicate_plugin_first_wins_and_warns (pf : Platform) (mode : Mode)
    (discovered : List LinkRecord) (destFull : String) (st : DestState)
    (rmFails createFails : String → Bool) (res : LinkSyncResult) (st' : DestState)
    (n : String)
    (hdup : 2 ≤ discovered.countP (fun r => r.pluginName = n))
    (hrun : syncUePluginLinks pf mode discovered destFull st rmFails createFails =
      .ok (res, st')) :
    (∃ d, discovered.find? (fun r => r.pluginName = n) = some d ∧
      (buildDesired discovered).1.filter (fun r => r.pluginName = n) = [d]) ∧
    Warning.duplicatePlugin n ∈ res.warnings ∧
    res.ok = true := by
  have hne : discovered ≠ [] := by
    intro he
    rw [he] at hdup
    simp at hdup
  have hie : discovered.isEmpty = false := by
    cases discovered with
    | nil => exact absurd rfl hne
    | cons a t => rfl
  have hg' : (discovered.isEmpty && !st.manifest.isSome) = false := by
    rw [hie]
    rfl
  rcases sync_ok_main pf mode discovered destFull st rmFails createFails res st'
    hrun hg' with ⟨run2, hfold, hres, _⟩
  refine ⟨?_, ?_,
    sync_ok_result_ok pf mode discovered destFull st rmFails createFails res st' hrun⟩
  · have hpos : 0 < discovered.countP (fun r => r.pluginName = n) := by omega
    rw [List.countP_pos_iff] at hpos
    rcases hpos with ⟨a, ha, hpa⟩
    have hfind : (discovered.find? (fun r => r.pluginName = n)).isSome :=
      List.find?_isSome.mpr ⟨a, ha, hpa⟩
    rcases Option.isSome_iff_exists.mp hfind with ⟨d, hd⟩
    refine ⟨d, hd, ?_⟩
    rw [buildDesired_filter, hd]
    rfl
  · have h0 : Warning.duplicatePlugin n ∈ (buildDesired discovered).2 :=
      buildDesired_dup_warning discovered n hdup
    have h1 : Warning.duplicatePlugin n ∈
        ((loadManifest st.manifest).foldl
          (removalStep pf mode destFull (buildDesired discovered).1 rmFails)
          { entries := st.entries, warnings := (buildDesired discovered).2
            removed := [], linked := []
            newManaged := loadManifest st.manifest }).warnings :=
      removalFold_warnings_mono pf mode destFull (buildDesired discovered).1 rmFails
        (loadManifest st.manifest) _ _ h0
    have h2 : Warning.duplicatePlugin n ∈ run2.warnings :=
      linkingFold_warnings_mono pf mode destFull (loadManifest st.manifest) rmFails
        createFails (buildDesired discovered).1 _ run2 _ hfold h1
    rw [hres]
    exact h2

/-- Witness for C7: two packages both providing `Foo`. -/
theorem duplicate_plugin_first_wins_and_warns_witness :
    (∃ d, (([⟨"Foo", "pkg-a", "/nm/pkg-a"⟩, ⟨"Foo", "pkg-b", "/nm/pkg-b"⟩] :
        List LinkRecord).find? (fun r => r.pluginName = "Foo")) = some d ∧
      (buildDesired [⟨"Foo", "pkg-a", "/nm/pkg-a"⟩, ⟨"Foo", "pkg-b", "/nm/pkg-b"⟩]).1.filter
        (fun r => r.pluginName = "Foo") = [d]) ∧
    Warning.duplicatePlugin "Foo" ∈
      ({ ok := true, linked := [⟨"Foo", "pkg-a", "/nm/pkg-a"⟩], removed := []
         warnings := [Warning.duplicatePlugin "Foo"] } : LinkSyncResult).warnings ∧
    ({ ok := true, linked := [⟨"Foo", "pkg-a", "/nm/pkg-a"⟩], removed := []
       warnings := [Warning.duplicatePlugin "Foo"] } : LinkSyncResult).ok = true :=
  duplicate_plugin_first_wins_and_warns .posix .auto
    [⟨"Foo", "pkg-a", "/nm/pkg-a"⟩, ⟨"Foo", "pkg-b", "/nm/pkg-b"⟩] "/dest"
    { entries := [], manifest := some [], destDirCreated := false }
    (fun _ => false) (fun _ => false)
    { ok := true, linked := [⟨"Foo", "pkg-a", "/nm/pkg-a"⟩], removed := []
      warnings := [Warning.duplicatePlugin "Foo"] }
    { entries := [("Foo", ⟨true, .linkTo "/nm/pkg-a"⟩)]
      manifest := some [⟨"Foo", "pkg-a", "/nm/pkg-a"⟩], destDirCreated := true }
    "Foo" (by decide) rfl

theorem pathExists_of_getEntry_some (es : List (String × FsEntry)) (n : String)
    (e : FsEntry) (h : getEntry es n = some e) : pathExists es n = true := by
  unfold pathExists
  rw [h]
  rfl

theorem isSymlink_of_getEntry_some (es : List (String × FsEntry)) (n : String)
    (e : FsEntry) (h : getEntry es n = some e) : isSymlink es n = e.isLink := by
  unfold isSymlink
  rw [h]

/-- C1: a desired plugin whose destination path already exists while its
name is not in the manifest loaded at the start of the run is skipped
entirely: the path and its content are unchanged at the end of the run, a
skip warning naming the path is emitted, and no record carrying that plugin
name appears in `linked` or in `removed`. -/
theorem sync_skips_existing_unmanaged_path (pf : Platform) (mode : Mode)
    (discovered : List LinkRecord) (destFull : String) (st : DestState)
    (rmFails createFails : String → Bool) (res : LinkSyncResult) (st' : DestState)
    (n : String) (d : LinkRecord) (e : FsEntry)
    (hdes : mapGet (buildDesired discovered).1 n = some d)
    (hentry : getEntry st.entries n = some e)
    (hman : mapHas (loadManifest st.manifest) n = false)
    (hrun : syncUePluginLinks pf mode discovered destFull st rmFails createFails =
      .ok (res, st')) :
    getEntry st'.entries n = some e ∧
    Warning.skippingExistsNotManaged (joinPath pf destFull n) ∈ res.warnings ∧
    (∀ r ∈ res.linked, r.pluginName ≠ n) ∧
    (∀ r ∈ res.removed, r.pluginName ≠ n) := by
  have hne : discovered ≠ [] := by
    intro he
    rw [he] at hdes
    simp [buildDesired, mapGet] at hdes
  have hie : discovered.isEmpty = false := by
    cases discovered with
    | nil => exact absurd rfl hne
    | cons a t => rfl
  rcases sync_ok_main pf mode discovered destFull st rmFails createFails res st'
    hrun (by rw [hie]; rfl) with ⟨run2, hfold, hres, hst⟩
  rcases mapGet_eq_some _ _ _ hdes with ⟨hdmem, hdname⟩
  have hmanall : ∀ r ∈ loadManifest st.manifest, r.pluginName ≠ n :=
    (mapHas_eq_false_iff _ _).mp hman
  rcases List.append_of_mem hdmem with ⟨s, t, hdec⟩
  have hnd := buildDesired_names_nodup discovered
  rw [hdec] at hnd
  rcases nodup_names_split s t d hnd with ⟨hs, ht⟩
  have hsn : ∀ x ∈ s, x.pluginName ≠ n := fun x hx => hdname ▸ hs x hx
  have htn : ∀ x ∈ t, x.pluginName ≠ n := fun x hx => hdname ▸ ht x hx
  rw [hdec] at hfold
  rcases linkingFold_ok_append pf mode destFull (loadManifest st.manifest) rmFails
    createFails s (d :: t) _ run2 hfold with ⟨stA, hfs, hfdt⟩
  rcases linkingFold_ok_cons pf mode destFull (loadManifest st.manifest) rmFails
    createFails stA run2 d t hfdt with ⟨stB, hstep, hft⟩
  -- facts after the removal pass
  have hent1 : getEntry ((loadManifest st.manifest).foldl
      (removalStep pf mode destFull (s ++ d :: t) rmFails)
      { entries := st.entries, warnings := (buildDesired discovered).2
        removed := [], linked := [], newManaged := loadManifest st.manifest
        : RunSt }).entries n = some e := by
    rw [removalFold_entries_ne pf mode destFull (s ++ d :: t) rmFails
      (loadManifest st.manifest) _ n hmanall]
    exact hentry
  have hlinked1 : ((loadManifest st.manifest).foldl
      (removalStep pf mode destFull (s ++ d :: t) rmFails)
      { entries := st.entries, warnings := (buildDesired discovered).2
        removed := [], linked := [], newManaged := loadManifest st.manifest
        : RunSt }).linked = [] := by
    rw [removalFold_linked]
  -- facts at the skip step
  have hentA : getEntry stA.entries n = some e := by
    rw [linkingFold_entries_ne pf mode destFull (loadManifest st.manifest) rmFails
      createFails s _ stA n hfs hsn]
    exact hent1
  have hstepeq : linkingStep pf mode destFull (loadManifest st.manifest) rmFails
      createFails stA d =
      .ok { stA with
        warnings := stA.warnings ++
          [Warning.skippingExistsNotManaged (joinPath pf destFull d.pluginName)] } := by
    apply linkingStep_exists_skip
    · rw [hdname]
      exact pathExists_of_getEntry_some stA.entries n e hentA
    · rw [hdname]
      exact hman
  have hB : stB = { stA with
      warnings := stA.warnings ++
        [Warning.skippingExistsNotManaged (joinPath pf destFull d.pluginName)] } := by
    rw [hstepeq] at hstep
    injection hstep with h1
    exact h1.symm
  refine ⟨?_, ?_, ?_, ?_⟩
  · rw [hst]
    show getEntry run2.entries n = some e
    rw [linkingFold_entries_ne pf mode destFull (loadManifest st.manifest) rmFails
      createFails t _ run2 n hft htn, hB]
    exact hentA
  · rw [hres]
    show Warning.skippingExistsNotManaged (joinPath pf destFull n) ∈ run2.warnings
    apply linkingFold_warnings_mono pf mode destFull (loadManifest st.manifest)
      rmFails createFails t _ run2 _ hft
    rw [hB]
    show Warning.skippingExistsNotManaged (joinPath pf destFull n) ∈
      stA.warnings ++ [Warning.skippingExistsNotManaged (joinPath pf destFull d.pluginName)]
    rw [hdname]
    exact List.mem_append_right _ (List.mem_singleton.mpr rfl)
  · rw [hres]
    intro r hr
    show r.pluginName ≠ n
    rcases linkingFold_linked_sub pf mode destFull (loadManifest st.manifest)
      rmFails createFails t stB run2 r hft hr with h1 | h1
    · rw [hB] at h1
      rcases linkingFold_linked_sub pf mode destFull (loadManifest st.manifest)
        rmFails createFails s _ stA r hfs h1 with h2 | h2
      · rw [hlinked1] at h2
        simp at h2
      · exact hsn r h2
    · exact htn r h1
  · rw [hres]
    intro r hr
    show r.pluginName ≠ n
    have hr2 : r ∈ ((loadManifest st.manifest).foldl
        (removalStep pf mode destFull (s ++ d :: t) rmFails)
        { entries := st.entries, warnings := (buildDesired discovered).2
          removed := [], linked := [], newManaged := loadManifest st.manifest
          : RunSt }).removed := by
      have he1 : run2.removed = stB.removed :=
        linkingFold_removed_eq pf mode destFull (loadManifest st.manifest) rmFails
          createFails t stB run2 hft
      have he2 : stB.removed = stA.removed := by rw [hB]
      have he3 : stA.removed = _ :=
        linkingFold_removed_eq pf mode destFull (loadManifest st.manifest) rmFails
          createFails s _ stA hfs
      rw [he1, he2, he3] at hr
      exact hr
    rcases removalFold_removed_sub pf mode destFull (s ++ d :: t)
      rmFails (loadManifest st.manifest) _ r hr2 with h1 | h1
    · simp at h1
    · exact hmanall r h1

/-- Witness for C1: a foreign directory already sits at the desired plugin
path; the run returns it untouched, warns, and links and removes nothing
with that name. -/
theorem sync_skips_existing_unmanaged_path_witness :
    getEntry [("Foo", (⟨false, .foreign 7⟩ : FsEntry))] "Foo" = some ⟨false, .foreign 7⟩ ∧
    Warning.skippingExistsNotManaged (joinPath .posix "/dest" "Foo") ∈
      [Warning.skippingExistsNotManaged (joinPath .posix "/dest" "Foo")] ∧
    (∀ r ∈ ([] : List LinkRecord), r.pluginName ≠ "Foo") ∧
    (∀ r ∈ ([] : List LinkRecord), r.pluginName ≠ "Foo") := by
  have h := sync_skips_existing_unmanaged_path .posix .auto
    [⟨"Foo", "pkg-a", "/nm/pkg-a"⟩] "/dest"
    { entries := [("Foo", ⟨false, .foreign 7⟩)], manifest := some []
      destDirCreated := false }
    (fun _ => false) (fun _ => false)
    { ok := true, linked := [], removed := []
      warnings := [Warning.skippingExistsNotManaged (joinPath .posix "/dest" "Foo")] }
    { entries := [("Foo", ⟨false, .foreign 7⟩)]
      manifest := some [], destDirCreated := true }
    "Foo" ⟨"Foo", "pkg-a", "/nm/pkg-a"⟩ ⟨false, .foreign 7⟩
    (by rfl) (by rfl) (by rfl) (by rfl)
  exact h

/-- C4 (amended): in the removal pass, for a manifest entry whose plugin
name is absent from the Desired Set and whose link path exists but is not a
symlink/junction, if the current mode is not `copy` *and the platform is
not win32*, `sync` emits the orphaned-entry warning, records the entry in
`removed`, and does not delete the path.  (On win32 the branch is skipped
and the path is deleted; see the counterexample.) -/
theorem removal_foreign_non_win32_warns_and_keeps_path (pf : Platform)
    (mode : Mode) (discovered : List LinkRecord) (destFull : String)
    (st : DestState) (rmFails createFails : String → Bool)
    (res : LinkSyncResult) (st' : DestState) (n : String) (rec : LinkRecord)
    (e : FsEntry)
    (hget : mapGet (loadManifest st.manifest) n = some rec)
    (hdes : mapHas (buildDesired discovered).1 n = false)
    (hentry : getEntry st.entries n = some e)
    (hlink : e.isLink = false)
    (hmode : mode ≠ Mode.copy)
    (hpf : pf ≠ Platform.win32)
    (hrun : syncUePluginLinks pf mode discovered destFull st rmFails createFails =
      .ok (res, st')) :
    Warning.managedNotALink (joinPath pf destFull n) ∈ res.warnings ∧
    rec ∈ res.removed ∧
    getEntry st'.entries n = some e := by
  have hms : st.manifest.isSome = true := by
    cases hm : st.manifest with
    | none =>
      rw [hm] at hget
      simp [loadManifest, mapGet] at hget
    | some recs => rfl
  rcases sync_ok_main pf mode discovered destFull st rmFails createFails res st'
    hrun (by rw [hms]; simp) with ⟨run2, hfold, hres, hst⟩
  rcases mapGet_eq_some _ _ _ hget with ⟨hrmem, hrname⟩
  have hdesall : ∀ x ∈ (buildDesired discovered).1, x.pluginName ≠ n :=
    (mapHas_eq_false_iff _ _).mp hdes
  rcases List.append_of_mem hrmem with ⟨s, t, hdec⟩
  have hnd := loadManifest_names_nodup st.manifest
  rw [hdec] at hnd
  rcases nodup_names_split s t rec hnd with ⟨hs, ht⟩
  have hsn : ∀ x ∈ s, x.pluginName ≠ n := fun x hx => hrname ▸ hs x hx
  have htn : ∀ x ∈ t, x.pluginName ≠ n := fun x hx => hrname ▸ ht x hx
  rw [hdec, List.foldl_append, List.foldl_cons] at hfold
  have hentA : getEntry (List.foldl
      (removalStep pf mode destFull (buildDesired discovered).1 rmFails)
      { entries := st.entries, warnings := (buildDesired discovered).2
        removed := [], linked := [], newManaged := s ++ rec :: t : RunSt }
      s).entries n = some e := by
    rw [removalFold_entries_ne pf mode destFull (buildDesired discovered).1 rmFails
      s _ n hsn]
    exact hentry
  rw [removalStep_foreign pf mode destFull (buildDesired discovered).1 rmFails _
    rec (by rw [hrname]; exact hdes)
    (by rw [hrname]; exact pathExists_of_getEntry_some _ n e hentA)
    (by rw [hrname, isSymlink_of_getEntry_some _ n e hentA]; exact hlink)
    hmode hpf] at hfold
  refine ⟨?_, ?_, ?_⟩
  · rw [hres]
    show Warning.managedNotALink (joinPath pf destFull n) ∈ run2.warnings
    apply linkingFold_warnings_mono pf mode destFull (s ++ rec :: t) rmFails
      createFails (buildDesired discovered).1 _ run2 _ hfold
    apply removalFold_warnings_mono
    show Warning.managedNotALink (joinPath pf destFull n) ∈
      _ ++ [Warning.managedNotALink (joinPath pf destFull rec.pluginName)]
    rw [hrname]
    exact List.mem_append_right _ (List.mem_singleton.mpr rfl)
  · rw [hres]
    show rec ∈ run2.removed
    rw [linkingFold_removed_eq pf mode destFull (s ++ rec :: t) rmFails
      createFails (buildDesired discovered).1 _ run2 hfold]
    apply removalFold_removed_mono
    exact List.mem_append_right _ (List.mem_singleton.mpr rfl)
  · rw [hst]
    show getEntry run2.entries n = some e
    rw [linkingFold_entries_ne pf mode destFull (s ++ rec :: t) rmFails
      createFails (buildDesired discovered).1 _ run2 n hfold hdesall]
    rw [removalFold_entries_ne pf mode destFull (buildDesired discovered).1 rmFails
      t _ n htn]
    exact hentA

/-- Witness for the amended C4: a stale manifest entry with a foreign
non-link path, on posix in auto mode. -/
theorem removal_foreign_non_win32_warns_and_keeps_path_witness :
    Warning.managedNotALink (joinPath .posix "/dest" "OldPlugin") ∈
      [Warning.managedNotALink (joinPath .posix "/dest" "OldPlugin")] ∧
    (⟨"OldPlugin", "old-pkg", "/src/old"⟩ : LinkRecord) ∈
      [(⟨"OldPlugin", "old-pkg", "/src/old"⟩ : LinkRecord)] ∧
    getEntry [("OldPlugin", (⟨false, .foreign 3⟩ : FsEntry))] "OldPlugin" =
      some ⟨false, .foreign 3⟩ := by
  have h := removal_foreign_non_win32_warns_and_keeps_path .posix .auto [] "/dest"
    { entries := [("OldPlugin", ⟨false, .foreign 3⟩)]
      manifest := some [⟨"OldPlugin", "old-pkg", "/src/old"⟩]
      destDirCreated := false }
    (fun _ => false) (fun _ => false)
    { ok := true, linked := []
      removed := [⟨"OldPlugin", "old-pkg", "/src/old"⟩]
      warnings := [Warning.managedNotALink (joinPath .posix "/dest" "OldPlugin")] }
    { entries := [("OldPlugin", ⟨false, .foreign 3⟩)]
      manifest := some [⟨"OldPlugin", "old-pkg", "/src/old"⟩]
      destDirCreated := true }
    "OldPlugin" ⟨"OldPlugin", "old-pkg", "/src/old"⟩ ⟨false, .foreign 3⟩
    (by rfl) (by rfl) (by rfl) (by rfl) (by simp) (by simp) (by rfl)
  exact h

theorem removalFold_entries_desired (pf : Platform) (mode : Mode)
    (destFull : String) (desired : List LinkRecord) (rmFails : String → Bool)
    (l : List LinkRecord) (st : RunSt) (n : String)
    (hdes : mapHas desired n = true) :
    getEntry (l.foldl (removalStep pf mode destFull desired rmFails) st).entries n =
      getEntry st.entries n := by
  induction l generalizing st with
  | nil => rfl
  | cons rec t ih =>
    rw [List.foldl_cons]
    by_cases hr : rec.pluginName = n
    · rw [removalStep_desired pf mode destFull desired rmFails st rec
        (by rw [hr]; exact hdes)]
      exact ih st
    · rw [ih _]
      exact removalStep_entries_ne pf mode destFull desired rmFails st rec n hr

/-- C5 (amended): per-item failures of the removal pass and of link
creation are caught and recorded as warnings and do not abort the run:
(a) a failing `fs.rm` in the removal pass yields the failed-remove warning,
leaves the path untouched and keeps the manifest entry in the persisted
manifest; (b) a failing link-creation primitive yields the failed-create
warning, the plugin is not recorded in `linked`, and the persisted manifest
carries the same entry for that name as the loaded one.  (The one uncaught
per-item failure is the pre-replacement removal of an existing
already-managed path at the start of a linking-pass iteration, which
propagates as an exception; see the counterexample.) -/
theorem per_item_failures_caught (pf : Platform) (mode : Mode)
    (discovered : List LinkRecord) (destFull : String) (st : DestState)
    (rmFails createFails : String → Bool) (res : LinkSyncResult) (st' : DestState)
    (hrun : syncUePluginLinks pf mode discovered destFull st rmFails createFails =
      .ok (res, st')) :
    (∀ n rec e, mapGet (loadManifest st.manifest) n = some rec →
      mapHas (buildDesired discovered).1 n = false →
      getEntry st.entries n = some e →
      ¬(e.isLink = false ∧ mode ≠ Mode.copy ∧ pf ≠ Platform.win32) →
      rmFails n = true →
      Warning.failedRemove (joinPath pf destFull n) ∈ res.warnings ∧
      getEntry st'.entries n = some e ∧
      (∃ M, st'.manifest = some M ∧ mapGet M n = some rec)) ∧
    (∀ n d, mapGet (buildDesired discovered).1 n = some d →
      createFails n = true →
      (getEntry st.entries n = none ∨
        (mapHas (loadManifest st.manifest) n = true ∧ rmFails n = false)) →
      Warning.failedCreate (joinPath pf destFull n) ∈ res.warnings ∧
      (∀ r ∈ res.linked, r.pluginName ≠ n) ∧
      (∃ M, st'.manifest = some M ∧
        mapGet M n = mapGet (loadManifest st.manifest) n)) := by
  constructor
  · -- (a) removal-pass failure
    intro n rec e hget hdes hentry hcond hrm
    have hms : st.manifest.isSome = true := by
      cases hm : st.manifest with
      | none =>
        rw [hm] at hget
        simp [loadManifest, mapGet] at hget
      | some recs => rfl
    rcases sync_ok_main pf mode discovered destFull st rmFails createFails res st'
      hrun (by rw [hms]; simp) with ⟨run2, hfold, hres, hst⟩
    rcases mapGet_eq_some _ _ _ hget with ⟨hrmem, hrname⟩
    have hdesall : ∀ x ∈ (buildDesired discovered).1, x.pluginName ≠ n :=
      (mapHas_eq_false_iff _ _).mp hdes
    rcases List.append_of_mem hrmem with ⟨s, t, hdec⟩
    have hnd := loadManifest_names_nodup st.manifest
    rw [hdec] at hnd
    rcases nodup_names_split s t rec hnd with ⟨hs, ht⟩
    have hsn : ∀ x ∈ s, x.pluginName ≠ n := fun x hx => hrname ▸ hs x hx
    have htn : ∀ x ∈ t, x.pluginName ≠ n := fun x hx => hrname ▸ ht x hx
    rw [hdec, List.foldl_append, List.foldl_cons] at hfold
    have hentA : getEntry (List.foldl
        (removalStep pf mode destFull (buildDesired discovered).1 rmFails)
        { entries := st.entries, warnings := (buildDesired discovered).2
          removed := [], linked := [], newManaged := s ++ rec :: t : RunSt }
        s).entries n = some e := by
      rw [removalFold_entries_ne pf mode destFull (buildDesired discovered).1
        rmFails s _ n hsn]
      exact hentry
    rw [removalStep_rmFail pf mode destFull (buildDesired discovered).1 rmFails _
      rec (by rw [hrname]; exact hdes)
      (by rw [hrname]; exact pathExists_of_getEntry_some _ n e hentA)
      (by
        rw [hrname, isSymlink_of_getEntry_some _ n e hentA]
        intro hc
        exact hcond ⟨by simpa using hc.1, hc.2.1, hc.2.2⟩)
      (by rw [hrname]; exact hrm)] at hfold
    refine ⟨?_, ?_, ?_⟩
    · rw [hres]
      show Warning.failedRemove (joinPath pf destFull n) ∈ run2.warnings
      apply linkingFold_warnings_mono pf mode destFull (s ++ rec :: t) rmFails
        createFails (buildDesired discovered).1 _ run2 _ hfold
      apply removalFold_warnings_mono
      show Warning.failedRemove (joinPath pf destFull n) ∈
        _ ++ [Warning.failedRemove (joinPath pf destFull rec.pluginName)]
      rw [hrname]
      exact List.mem_append_right _ (List.mem_singleton.mpr rfl)
    · rw [hst]
      show getEntry run2.entries n = some e
      rw [linkingFold_entries_ne pf mode destFull (s ++ rec :: t) rmFails
        createFails (buildDesired discovered).1 _ run2 n hfold hdesall]
      rw [removalFold_entries_ne pf mode destFull (buildDesired discovered).1
        rmFails t _ n htn]
      exact hentA
    · rw [hst]
      refine ⟨run2.newManaged, rfl, ?_⟩
      rw [linkingFold_newManaged_ne pf mode destFull (s ++ rec :: t) rmFails
        createFails (buildDesired discovered).1 _ run2 n hfold hdesall]
      rw [removalFold_newManaged]
      show mapGet (List.foldl
        (removalStep pf mode destFull (buildDesired discovered).1 rmFails)
        { entries := st.entries, warnings := (buildDesired discovered).2
          removed := [], linked := [], newManaged := s ++ rec :: t : RunSt }
        s).newManaged n = some rec
      rw [removalFold_newManaged]
      show mapGet (s ++ rec :: t) n = some rec
      rw [← hdec]
      exact hget
  · -- (b) link-creation failure
    intro n d hgetd hcf hdisj
    have hne : discovered ≠ [] := by
      intro he
      rw [he] at hgetd
      simp [buildDesired, mapGet] at hgetd
    have hie : discovered.isEmpty = false := by
      cases discovered with
      | nil => exact absurd rfl hne
      | cons a t => rfl
    rcases sync_ok_main pf mode discovered destFull st rmFails createFails res st'
      hrun (by rw [hie]; rfl) with ⟨run2, hfold, hres, hst⟩
    rcases mapGet_eq_some _ _ _ hgetd with ⟨hdmem, hdname⟩
    rcases List.append_of_mem hdmem with ⟨s, t, hdec⟩
    have hnd := buildDesired_names_nodup discovered
    rw [hdec] at hnd
    rcases nodup_names_split s t d hnd with ⟨hs, ht⟩
    have hsn : ∀ x ∈ s, x.pluginName ≠ n := fun x hx => hdname ▸ hs x hx
    have htn : ∀ x ∈ t, x.pluginName ≠ n := fun x hx => hdname ▸ ht x hx
    have hdeshas : mapHas (s ++ d :: t) n = true := by
      rw [mapHas_eq_true_iff]
      exact ⟨d, by simp, hdname⟩
    rw [hdec] at hfold
    rcases linkingFold_ok_append pf mode destFull (loadManifest st.manifest)
      rmFails createFails s (d :: t) _ run2 hfold with ⟨stA, hfs, hfdt⟩
    rcases linkingFold_ok_cons pf mode destFull (loadManifest st.manifest)
      rmFails createFails stA run2 d t hfdt with ⟨stB, hstep, hft⟩
    have hentA : getEntry stA.entries n = getEntry st.entries n := by
      rw [linkingFold_entries_ne pf mode destFull (loadManifest st.manifest)
        rmFails createFails s _ stA n hfs hsn]
      rw [removalFold_entries_desired pf mode destFull (s ++ d :: t) rmFails
        (loadManifest st.manifest) _ n hdeshas]
    have hBprops : stB.warnings = stA.warnings ++
        [Warning.failedCreate (joinPath pf destFull d.pluginName)] ∧
        stB.linked = stA.linked ∧ stB.newManaged = stA.newManaged ∧
        stB.removed = stA.removed := by
      have hcf' : createFails d.pluginName = true := by rw [hdname]; exact hcf
      rcases hdisj with hnone | ⟨hmng, hrmok⟩
      · have habs : pathExists stA.entries d.pluginName = false := by
          rw [hdname]
          unfold pathExists
          rw [hentA, hnone]
          rfl
        rw [linkingStep_absent pf mode destFull (loadManifest st.manifest) rmFails
          createFails stA d habs,
          linkingTryCreate_of_absent_fail pf mode destFull rmFails createFails stA
            d habs hcf'] at hstep
        injection hstep with h1
        rw [← h1]
        exact ⟨rfl, rfl, rfl, rfl⟩
      · cases hge : getEntry st.entries n with
        | none =>
          have habs : pathExists stA.entries d.pluginName = false := by
            rw [hdname]
            unfold pathExists
            rw [hentA, hge]
            rfl
          rw [linkingStep_absent pf mode destFull (loadManifest st.manifest)
            rmFails createFails stA d habs,
            linkingTryCreate_of_absent_fail pf mode destFull rmFails createFails
              stA d habs hcf'] at hstep
          injection hstep with h1
          rw [← h1]
          exact ⟨rfl, rfl, rfl, rfl⟩
        | some e =>
          have hex : pathExists stA.entries d.pluginName = true := by
            rw [hdname]
            unfold pathExists
            rw [hentA, hge]
            rfl
          have habs : pathExists
              ({ stA with entries := eraseEntry stA.entries d.pluginName }
                : RunSt).entries d.pluginName = false := by
            show pathExists (eraseEntry stA.entries d.pluginName) d.pluginName =
              false
            unfold pathExists
            rw [getEntry_eraseEntry_self]
            rfl
          rw [linkingStep_replace_rmOk pf mode destFull (loadManifest st.manifest)
            rmFails createFails stA d hex (by rw [hdname]; exact hmng)
            (by rw [hdname]; exact hrmok),
            linkingTryCreate_of_absent_fail pf mode destFull rmFails createFails
              _ d habs hcf'] at hstep
          injection hstep with h1
          rw [← h1]
          exact ⟨rfl, rfl, rfl, rfl⟩
    refine ⟨?_, ?_, ?_⟩
    · rw [hres]
      show Warning.failedCreate (joinPath pf destFull n) ∈ run2.warnings
      apply linkingFold_warnings_mono pf mode destFull (loadManifest st.manifest)
        rmFails createFails t _ run2 _ hft
      rw [hBprops.1, hdname]
      exact List.mem_append_right _ (List.mem_singleton.mpr rfl)
    · rw [hres]
      intro r hr
      show r.pluginName ≠ n
      rcases linkingFold_linked_sub pf mode destFull (loadManifest st.manifest)
        rmFails createFails t stB run2 r hft hr with h1 | h1
      · rw [hBprops.2.1] at h1
        rcases linkingFold_linked_sub pf mode destFull (loadManifest st.manifest)
          rmFails createFails s _ stA r hfs h1 with h2 | h2
        · rw [removalFold_linked] at h2
          simp at h2
        · exact hsn r h2
      · exact htn r h1
    · rw [hst]
      refine ⟨run2.newManaged, rfl, ?_⟩
      rw [linkingFold_newManaged_ne pf mode destFull (loadManifest st.manifest)
        rmFails createFails t stB run2 n hft htn]
      rw [hBprops.2.2.1]
      rw [linkingFold_newManaged_ne pf mode destFull (loadManifest st.manifest)
        rmFails createFails s _ stA n hfs hsn]
      rw [removalFold_newManaged]

/-- Witness for the amended C5: one manifest entry whose removal fails (the
path, a link, stays and the entry is still persisted) and one desired
plugin whose creation fails (warned, not linked, manifest unchanged for
that name), in a single run that still returns normally. -/
theorem per_item_failures_caught_witness :
    (Warning.failedRemove (joinPath .posix "/dest" "Old") ∈
      (⟨true, [], [], [Warning.failedRemove (joinPath .posix "/dest" "Old"),
        Warning.failedCreate (joinPath .posix "/dest" "X")]⟩
        : LinkSyncResult).warnings ∧
     getEntry (⟨[("Old", ⟨true, .linkTo "/s1"⟩)],
        some [⟨"Old", "p1", "/s1"⟩, ⟨"X", "p2", "/s2"⟩], true⟩
        : DestState).entries "Old" = some ⟨true, .linkTo "/s1"⟩ ∧
     (∃ M, (⟨[("Old", ⟨true, .linkTo "/s1"⟩)],
        some [⟨"Old", "p1", "/s1"⟩, ⟨"X", "p2", "/s2"⟩], true⟩
        : DestState).manifest = some M ∧
       mapGet M "Old" = some ⟨"Old", "p1", "/s1"⟩)) ∧
    (Warning.failedCreate (joinPath .posix "/dest" "X") ∈
      (⟨true, [], [], [Warning.failedRemove (joinPath .posix "/dest" "Old"),
        Warning.failedCreate (joinPath .posix "/dest" "X")]⟩
        : LinkSyncResult).warnings ∧
     (∀ r ∈ (⟨true, [], [], [Warning.failedRemove (joinPath .posix "/dest" "Old"),
        Warning.failedCreate (joinPath .posix "/dest" "X")]⟩
        : LinkSyncResult).linked, r.pluginName ≠ "X") ∧
     (∃ M, (⟨[("Old", ⟨true, .linkTo "/s1"⟩)],
        some [⟨"Old", "p1", "/s1"⟩, ⟨"X", "p2", "/s2"⟩], true⟩
        : DestState).manifest = some M ∧
       mapGet M "X" =
         mapGet (loadManifest (some [⟨"Old", "p1", "/s1"⟩, ⟨"X", "p2", "/s2"⟩]))
           "X")) := by
  have h := per_item_failures_caught .posix .auto [⟨"X", "p2", "/s2n"⟩] "/dest"
    ⟨[("Old", ⟨true, .linkTo "/s1"⟩)],
      some [⟨"Old", "p1", "/s1"⟩, ⟨"X", "p2", "/s2"⟩], false⟩
    (fun s => s == "Old") (fun s => s == "X")
    ⟨true, [], [], [Warning.failedRemove (joinPath .posix "/dest" "Old"),
      Warning.failedCreate (joinPath .posix "/dest" "X")]⟩
    ⟨[("Old", ⟨true, .linkTo "/s1"⟩)],
      some [⟨"Old", "p1", "/s1"⟩, ⟨"X", "p2", "/s2"⟩], true⟩
    rfl
  exact ⟨h.1 "Old" ⟨"Old", "p1", "/s1"⟩ ⟨true, .linkTo "/s1"⟩ rfl rfl rfl
      (by simp) rfl,
    h.2 "X" ⟨"X", "p2", "/s2n"⟩ rfl rfl (Or.inl rfl)⟩
